import Mathlib

/-!
# Quest-variable synchronisation (`src/game-server/quest.cpp`)

A shallow embedding of the quest-variable cache, the table of pending
recoveries (`pendingQuests`) and the death listener that guards it, followed by
theorems about the embedded functions.

Conventions of the embedding.

* A `std::map` is an association list.  `find` returns the first binding of a
  key, `assign` overwrites the binding of a key or adds one, `erase` removes
  the bindings of a key.  The iteration order of a `std::map` is never
  observable in `quest.cpp` (the only full iteration, in `partialRemove`,
  treats every entry alike), so the list is not kept sorted.
* A `Character *` is an address (`CharPtr`); the heap `State.chars` maps every
  address to the object stored there.  A null pointer is `none`.
* Calls that leave the translation unit (`accountHandler->updateQuestVar`,
  `accountHandler->requestQuestVar`, a callback's `handler`, `LOG_ERROR`) are
  recorded, in order, as a list of `Effect`s returned next to the new state.
  Handlers are opaque: what a handler does with its arguments is not followed.
* `assert` failing and dereferencing a null pointer are `Fault`s.
* The Lifecycle Notifier is outside `quest.cpp`: its two events are modelled from
  the specification (`removedEvent`, `disconnectedEvent`), an event reaching the
  listener's reaction only while the listener is attached to the character.
-/

namespace Quest

/-! ## `std::map` -/

/-- Association list standing for a `std::map< K, V >`. -/
abbrev StdMap (K V : Type) := List (K × V)

namespace StdMap

variable {K V : Type} [DecidableEq K]

/-- Lookup in the map: `m.find(k)`, with `none` for `m.end()`. -/
def find : StdMap K V → K → Option V
  | [], _ => none
  | (k', v) :: t, k => if k' = k then some v else find t k

/-- Store in the map: `m[k] = v`, also `m.insert(make_pair(k, v))` for an absent `k`. -/
def assign : StdMap K V → K → V → StdMap K V
  | [], k, v => [(k, v)]
  | (k', v') :: t, k, v => if k' = k then (k, v) :: t else (k', v') :: assign t k v

/-- Removal from the map: `m.erase(k)`. -/
def erase (m : StdMap K V) (k : K) : StdMap K V :=
  m.filter (fun p => decide (p.1 ≠ k))

/-- Emptiness test: `m.empty()`. -/
def empty (m : StdMap K V) : Bool := m.isEmpty

end StdMap

/-! ## Data model -/

/-- Address of a `Character` object. -/
abbrev CharPtr := Nat

/-- The `QuestCallback` of `quest.hpp`: a function pointer and the opaque
`void *data` handed back to it. -/
structure QuestCallback where
  handler : Nat
  data : Nat
  deriving DecidableEq, Repr

/-- The list type `QuestCallbacks` (`std::list< QuestCallback >`). -/
abbrev QuestCallbacks := List QuestCallback

/-- The map type `PendingVariables` (`std::map< std::string, QuestCallbacks >`). -/
abbrev PendingVariables := StdMap String QuestCallbacks

/-- The struct `PendingQuest`; `character` is `none` for a null pointer, which
is what `PendingQuest()` holds.  The member `variables` is named
`pendingVariables` here, `variables` being a reserved word. -/
structure PendingQuest where
  character : Option CharPtr
  pendingVariables : PendingVariables
  deriving DecidableEq, Repr

/-- The map type `PendingQuests` (`std::map< int, PendingQuest >`). -/
abbrev PendingQuests := StdMap Int PendingQuest

/-- Modelled from the spec: the `Character` class (`character.hpp` is not part
of the sources).  A character has a persistent identity (`getDatabaseID()`), owns
its quest cache, and has a set of attached listeners of which only the
membership of `questDeathListener` matters here.  `disconnected` is a ghost
field: it records that the permanent-disconnect event has occurred for the
object, after which the object is destroyed. -/
structure Character where
  databaseID : Int
  questCache : StdMap String String
  hasQuestListener : Bool
  disconnected : Bool
  deriving DecidableEq, Repr

/-- Everything `quest.cpp` reads or writes: the characters and the static
`pendingQuests`. -/
structure State where
  chars : CharPtr → Character
  pendingQuests : PendingQuests

/-- A call leaving `quest.cpp`. -/
inductive Effect where
  | updateQuestVar (ch : CharPtr) (name value : String)
  | requestQuestVar (ch : CharPtr) (name : String)
  | handlerCall (handler : Nat) (ch : CharPtr) (name value : String) (data : Nat)
  | logError
  deriving DecidableEq, Repr

/-- Abnormal termination. -/
inductive Fault where
  | assertionFailed
  | nullDereference
  deriving DecidableEq, Repr

/-- Outcome of a function that may fault. -/
abbrev Result := Except Fault (State × List Effect)

namespace State

/-- The member call `ch->getDatabaseID()`. -/
def getDatabaseID (s : State) (ch : CharPtr) : Int := (s.chars ch).databaseID

/-- The member `ch->questCache`. -/
def questCache (s : State) (ch : CharPtr) : StdMap String String := (s.chars ch).questCache

/-- The member test: `questDeathListener` is among the listeners of `ch`. -/
def hasListener (s : State) (ch : CharPtr) : Bool := (s.chars ch).hasQuestListener

/-- Replace the object stored at `ch`. -/
def setChar (s : State) (ch : CharPtr) (c : Character) : State :=
  { s with chars := Function.update s.chars ch c }

/-- Replace the static `pendingQuests`. -/
def setPendingQuests (s : State) (m : PendingQuests) : State :=
  { s with pendingQuests := m }

/-- Replace `ch->questCache`. -/
def setQuestCache (s : State) (ch : CharPtr) (m : StdMap String String) : State :=
  s.setChar ch { s.chars ch with questCache := m }

/-- Modelled from the spec: `ch->addListener(&questDeathListener)` attaches the
guard to the character (`eventlistener.hpp` is not part of the sources). -/
def addListener (s : State) (ch : CharPtr) : State :=
  s.setChar ch { s.chars ch with hasQuestListener := true }

/-- Modelled from the spec: `ch->removeListener(&questDeathListener)` detaches
the guard from the character (`eventlistener.hpp` is not part of the sources). -/
def removeListener (s : State) (ch : CharPtr) : State :=
  s.setChar ch { s.chars ch with hasQuestListener := false }

/-- Record, in the ghost field, that the permanent-disconnect event has occurred
for `ch`. -/
def markDisconnected (s : State) (ch : CharPtr) : State :=
  s.setChar ch { s.chars ch with disconnected := true }

end State

/-- The invocation `k->handler(ch, name, value, k->data)`. -/
def QuestCallback.invoke (ch : CharPtr) (name value : String) (k : QuestCallback) : Effect :=
  Effect.handlerCall k.handler ch name value k.data

/-! ## The functions of `quest.cpp` -/

/-- The function `getQuestVar`: `some value` stands for returning `true` with
`value` stored, `none` for returning `false`. -/
def getQuestVar (s : State) (ch : CharPtr) (name : String) : Option String :=
  StdMap.find (s.questCache ch) name

/-- The function `setQuestVar`. -/
def setQuestVar (s : State) (ch : CharPtr) (name value : String) : State × List Effect :=
  match StdMap.find (s.questCache ch) name with
  | none =>
    (s.setQuestCache ch (StdMap.assign (s.questCache ch) name value),
      [Effect.updateQuestVar ch name value])
  | some old =>
    if old = value then (s, [])
    else
      (s.setQuestCache ch (StdMap.assign (s.questCache ch) name value),
        [Effect.updateQuestVar ch name value])

/-- The entry `pendingQuests[id]`: the record stored under `id`, or the
freshly inserted `PendingQuest()`. -/
def subscript (m : PendingQuests) (id : Int) : PendingQuest :=
  match StdMap.find m id with
  | some r => r
  | none => { character := none, pendingVariables := [] }

/-- The listener reaction `QuestDeathListener::partialRemove`. -/
def partialRemove (s : State) (t : CharPtr) : State :=
  let id := s.getDatabaseID t
  let r := subscript s.pendingQuests id
  let r1 : PendingQuest :=
    { r with pendingVariables := r.pendingVariables.map (fun p => (p.1, ([] : QuestCallbacks))) }
  s.setPendingQuests (StdMap.assign s.pendingQuests id r1)

/-- The listener reaction `QuestDeathListener::fullRemove`. -/
def fullRemove (s : State) (ch : CharPtr) : State :=
  let s1 := s.removeListener ch
  s1.setPendingQuests (StdMap.erase s1.pendingQuests (s1.getDatabaseID ch))

/-- The statement `i->second.variables[name].push_back(f)`: the subscript
inserts an empty list for an absent `name`. -/
def pushBack (r : PendingQuest) (name : String) (f : QuestCallback) : PendingQuest :=
  { r with pendingVariables :=
      StdMap.assign r.pendingVariables name ((StdMap.find r.pendingVariables name).getD [] ++ [f]) }

/-- The function `recoverQuestVar`. -/
def recoverQuestVar (s : State) (ch : CharPtr) (name : String) (f : QuestCallback) : Result :=
  if StdMap.find (s.questCache ch) name ≠ none then Except.error Fault.assertionFailed
  else
    let id := s.getDatabaseID ch
    match StdMap.find s.pendingQuests id with
    | none =>
      let s1 := s.addListener ch
      let r : PendingQuest := { character := some ch, pendingVariables := [] }
      Except.ok (s1.setPendingQuests (StdMap.assign s1.pendingQuests id (pushBack r name f)),
        [Effect.requestQuestVar ch name])
    | some r =>
      Except.ok (s.setPendingQuests (StdMap.assign s.pendingQuests id (pushBack r name f)),
        [Effect.requestQuestVar ch name])

/-- The function `recoveredQuestVar`. -/
def recoveredQuestVar (s : State) (id : Int) (name value : String) : Result :=
  match StdMap.find s.pendingQuests id with
  | none => Except.ok (s, [])
  | some r =>
    match r.character with
    | none => Except.error Fault.nullDereference
    | some ch =>
      let s1 := s.removeListener ch
      match StdMap.find r.pendingVariables name with
      | none => Except.ok (s1, [Effect.logError])
      | some callbacks =>
        let s2 := s1.setQuestCache ch (StdMap.assign (s1.questCache ch) name value)
        let calls := callbacks.map (QuestCallback.invoke ch name value)
        let remaining := StdMap.erase r.pendingVariables name
        let r1 : PendingQuest := { r with pendingVariables := remaining }
        if StdMap.empty remaining then
          Except.ok (s2.setPendingQuests (StdMap.erase s2.pendingQuests id), calls)
        else
          Except.ok (s2.setPendingQuests (StdMap.assign s2.pendingQuests id r1), calls)

/-! ## Lifecycle events and runs -/

/-- Modelled from the spec: the transient-removal event of the Lifecycle
Notifier (the dispatch code is not part of the sources).  The event reaches
`partialRemove` when the quest listener is attached to the character. -/
def removedEvent (s : State) (ch : CharPtr) : State :=
  if s.hasListener ch then partialRemove s ch else s

/-- Modelled from the spec: the permanent-disconnect event of the Lifecycle
Notifier (the dispatch code is not part of the sources).  The event reaches
`fullRemove` when the quest listener is attached to the character; the
character object is destroyed afterwards, which the ghost field records. -/
def disconnectedEvent (s : State) (ch : CharPtr) : State :=
  let s1 := if s.hasListener ch then fullRemove s ch else s
  s1.markDisconnected ch

/-- One call into the subsystem. -/
inductive Op where
  | recover (ch : CharPtr) (name : String) (f : QuestCallback)
  | recovered (id : Int) (name value : String)
  | set (ch : CharPtr) (name value : String)
  | removed (ch : CharPtr)
  | disconnected (ch : CharPtr)
  deriving DecidableEq, Repr

/-- Perform one call. -/
def step (s : State) : Op → Result
  | Op.recover ch name f => recoverQuestVar s ch name f
  | Op.recovered id name value => recoveredQuestVar s id name value
  | Op.set ch name value => Except.ok (setQuestVar s ch name value)
  | Op.removed ch => Except.ok (removedEvent s ch, [])
  | Op.disconnected ch => Except.ok (disconnectedEvent s ch, [])

/-- Perform a sequence of calls, collecting the effects in order. -/
def run (s : State) : List Op → Result
  | [] => Except.ok (s, [])
  | op :: ops =>
    match step s op with
    | Except.error e => Except.error e
    | Except.ok (s1, e1) =>
      match run s1 ops with
      | Except.error e => Except.error e
      | Except.ok (s2, e2) => Except.ok (s2, e1 ++ e2)

/-- The state at start-up: `pendingQuests` is empty, the character at address
`p` has identity `p`, an empty quest cache and no listener. -/
def initialState : State :=
  { chars := fun p =>
      { databaseID := (p : Int), questCache := [], hasQuestListener := false,
        disconnected := false },
    pendingQuests := [] }

/-- The effects of an outcome, `none` for a fault. -/
def Result.effects : Result → Option (List Effect)
  | Except.ok (_, e) => some e
  | Except.error _ => none

/-- The state of an outcome, `none` for a fault. -/
def Result.state : Result → Option State
  | Except.ok (s, _) => some s
  | Except.error _ => none

/-- The callbacks waiting for `name` in the record of `id`, in order. -/
def pendingCallbacks (s : State) (id : Int) (name : String) : QuestCallbacks :=
  match StdMap.find s.pendingQuests id with
  | none => []
  | some r => (StdMap.find r.pendingVariables name).getD []

/-- The record kept for the identity of `ch`, when there is one, refers to `ch`. -/
def RecordRefersTo (s : State) (ch : CharPtr) : Prop :=
  ∀ r, StdMap.find s.pendingQuests (s.getDatabaseID ch) = some r → r.character = some ch

/-- The record kept for the identity of `ch` refers to `ch`, and `name` is one
of its pending variables, with the callbacks `l` waiting in that order. -/
def PendingFor (s : State) (ch : CharPtr) (name : String) (l : QuestCallbacks) : Prop :=
  ∃ r, StdMap.find s.pendingQuests (s.getDatabaseID ch) = some r ∧ r.character = some ch ∧
    StdMap.find r.pendingVariables name = some l

/-- The state reached from `initialState` by a sequence of calls. -/
def stateAfter (ops : List Op) : State :=
  match run initialState ops with
  | Except.ok (s, _) => s
  | Except.error _ => initialState

/-- A callback used in the examples. -/
def cbA : QuestCallback := { handler := 1, data := 10 }

/-- A second callback used in the examples. -/
def cbB : QuestCallback := { handler := 2, data := 20 }

/-- A third callback used in the examples. -/
def cbC : QuestCallback := { handler := 3, data := 30 }

/-- The calls after which the character at address 7 still waits for `b` while
the listener has been detached from it: two registrations and the completion of
the first. -/
def detachingCalls : List Op :=
  [Op.recover 7 "a" cbA, Op.recover 7 "b" cbB, Op.recovered 7 "a" "1"]

/-- The state in which `cbA` already waits for `slime_killed` on behalf of the
character at address 7. -/
def waitingOnce : State := stateAfter [Op.recover 7 "slime_killed" cbA]

/-- No two character objects share a database identity. -/
def UniqueIDs (s : State) : Prop :=
  ∀ p q, s.getDatabaseID p = s.getDatabaseID q → p = q

/-- Soundness of the table with respect to the characters: every record refers
to a character whose identity is the key of the record, and a character the
listener is attached to has a record. -/
def LedgerSound (s : State) : Prop :=
  (∀ id r, StdMap.find s.pendingQuests id = some r →
      ∃ p, r.character = some p ∧ s.getDatabaseID p = id) ∧
  (∀ p, s.hasListener p = true →
      ∃ r, StdMap.find s.pendingQuests (s.getDatabaseID p) = some r)

/-- A start-up state: `pendingQuests` is empty, the listener is attached to no
character and identities are unique. -/
def Initial (s : State) : Prop :=
  s.pendingQuests = [] ∧ (∀ p, s.hasListener p = false) ∧ UniqueIDs s

/-- A state reached from a start-up state by a sequence of calls none of which
faulted. -/
def Reachable (s : State) : Prop :=
  ∃ s0 ops e, Initial s0 ∧ run s0 ops = Except.ok (s, e)

/-- The list stored for `name` in the record of `id`: `none` when `id` has no
record or `name` is not one of the pending variables of the record. -/
def pendingEntry (s : State) (id : Int) (name : String) : Option QuestCallbacks :=
  match StdMap.find s.pendingQuests id with
  | none => none
  | some r => StdMap.find r.pendingVariables name

/-- The state in which the character at address 7 waits for `a` with `cbA`. -/
def waitingForA : State := stateAfter [Op.recover 7 "a" cbA]

/-- The record held for identity 7 in `waitingForA`. -/
def recordForA : PendingQuest := { character := some 7, pendingVariables := [("a", [cbA])] }

/-- The state in which the character at address 7 waits for `a` with `cbA` and
for `b` with `cbB`. -/
def waitingForAB : State := stateAfter [Op.recover 7 "a" cbA, Op.recover 7 "b" cbB]

/-- The record held for identity 7 in `waitingForAB`. -/
def recordForAB : PendingQuest :=
  { character := some 7, pendingVariables := [("a", [cbA]), ("b", [cbB])] }

/-- The record that remains for identity 7 after `detachingCalls`. -/
def recordForB : PendingQuest := { character := some 7, pendingVariables := [("b", [cbB])] }

/-- A character the listener is attached to has a record under its identity,
and that record refers to it. -/
def ListenerSound (s : State) : Prop :=
  ∀ p, s.hasListener p = true →
    ∃ r, StdMap.find s.pendingQuests (s.getDatabaseID p) = some r ∧ r.character = some p

/-- Every record of the table has at least one pending variable name. -/
def NoEmptyRecord (s : State) : Prop :=
  ∀ id r, StdMap.find s.pendingQuests id = some r → r.pendingVariables ≠ []

/-- Whether an effect is an invocation of the handler of `f` with the data of `f`. -/
def Effect.isCallOf (f : QuestCallback) : Effect → Bool
  | Effect.handlerCall h _ _ _ d => decide (h = f.handler ∧ d = f.data)
  | _ => false

/-- The number of invocations of `f` among the effects. -/
def invocationCount (f : QuestCallback) (e : List Effect) : Nat :=
  e.countP (Effect.isCallOf f)

/-- Whether a call is a `recoverQuestVar` that registers `f`. -/
def Op.registers (f : QuestCallback) : Op → Bool
  | Op.recover _ _ g => decide (g = f)
  | _ => false

/-- The sum of a measure over the values stored in a map. -/
def StdMap.total {K V : Type} (w : V → Nat) (m : StdMap K V) : Nat :=
  (m.map (fun p => w p.2)).sum

/-- The number of copies of `f` a record holds, over all its pending names. -/
def PendingQuest.heldCount (f : QuestCallback) (r : PendingQuest) : Nat :=
  StdMap.total (fun l => l.count f) r.pendingVariables

/-- The number of copies of `f` the table holds, over all records. -/
def heldCount (f : QuestCallback) (s : State) : Nat :=
  StdMap.total (PendingQuest.heldCount f) s.pendingQuests

/-- The calls of the run in which the character at address 7 disconnects while
`b` is still awaited: `detachingCalls`, the permanent-disconnect event and the
completion for `b`. -/
def lateCompletionCalls : List Op :=
  detachingCalls ++ [Op.disconnected 7, Op.recovered 7 "b" "2"]

/-- A call into the subsystem, or one of the two listener reactions called
directly, whether or not the listener is attached to the character. -/
inductive Call where
  | op (o : Op)
  | partialRemove (ch : CharPtr)
  | fullRemove (ch : CharPtr)
  deriving DecidableEq, Repr

/-- Perform one call or reaction. -/
def stepCall (s : State) : Call → Result
  | Call.op o => step s o
  | Call.partialRemove ch => Except.ok (partialRemove s ch, [])
  | Call.fullRemove ch => Except.ok (fullRemove s ch, [])

/-- Perform a sequence of calls and reactions, collecting the effects in order. -/
def runCalls (s : State) : List Call → Result
  | [] => Except.ok (s, [])
  | c :: cs =>
    match stepCall s c with
    | Except.error e => Except.error e
    | Except.ok (s1, e1) =>
      match runCalls s1 cs with
      | Except.error e => Except.error e
      | Except.ok (s2, e2) => Except.ok (s2, e1 ++ e2)

/-- Whether a call is a `recoverQuestVar` that registers `f`. -/
def Call.registers (f : QuestCallback) : Call → Bool
  | Call.op o => Op.registers f o
  | _ => false

/-- The number of registrations of `f` among the calls and reactions. -/
def callRegistrationCount (f : QuestCallback) (cs : List Call) : Nat :=
  cs.countP (Call.registers f)

/-! ## Facts about the map operations -/

namespace StdMap

variable {K V : Type} [DecidableEq K]

theorem find_assign_self (m : StdMap K V) (k : K) (v : V) :
    find (assign m k v) k = some v := by
  induction m with
  | nil => simp [assign, find]
  | cons p t ih =>
    obtain ⟨k', v'⟩ := p
    by_cases h : k' = k
    · simp [assign, find, h]
    · simp [assign, find, h, ih]

theorem find_assign_ne (m : StdMap K V) {k k' : K} (v : V) (h : k' ≠ k) :
    find (assign m k v) k' = find m k' := by
  induction m with
  | nil => simp [assign, find, Ne.symm h]
  | cons p t ih =>
    obtain ⟨k₀, v₀⟩ := p
    by_cases h0 : k₀ = k
    · subst h0
      simp [assign, find, Ne.symm h]
    · by_cases h1 : k₀ = k'
      · subst h1
        simp [assign, find, h0]
      · simp [assign, find, h0, h1, ih]

theorem find_erase_self (m : StdMap K V) (k : K) : find (erase m k) k = none := by
  induction m with
  | nil => simp [erase, find]
  | cons p t ih =>
    obtain ⟨k', v'⟩ := p
    by_cases h : k' = k
    · simpa [erase, List.filter_cons, h] using ih
    · simpa [erase, List.filter_cons, h, find] using ih

theorem find_erase_ne (m : StdMap K V) {k k' : K} (h : k' ≠ k) :
    find (erase m k) k' = find m k' := by
  induction m with
  | nil => simp [erase, find]
  | cons p t ih =>
    obtain ⟨k₀, v₀⟩ := p
    by_cases h0 : k₀ = k
    · subst h0
      simpa [erase, List.filter_cons, find, Ne.symm h] using ih
    · by_cases h1 : k₀ = k'
      · subst h1
        simp [erase, List.filter_cons, find, h0]
      · simpa [erase, List.filter_cons, find, h0, h1] using ih

theorem find_map_values {W : Type} (m : StdMap K V) (g : V → W) (k : K) :
    find (m.map (fun p => (p.1, g p.2))) k = (find m k).map g := by
  induction m with
  | nil => simp [find]
  | cons p t ih =>
    obtain ⟨k', v'⟩ := p
    by_cases h : k' = k
    · simp [find, h]
    · simp [find, h, ih]

end StdMap

@[simp] theorem hasListener_setPendingQuests (s : State) (m : PendingQuests) (p : CharPtr) :
    (s.setPendingQuests m).hasListener p = s.hasListener p := rfl

@[simp] theorem hasListener_setQuestCache (s : State) (ch p : CharPtr)
    (m : StdMap String String) : (s.setQuestCache ch m).hasListener p = s.hasListener p := by
  by_cases h : p = ch
  · subst h
    simp [State.setQuestCache, State.setChar, State.hasListener]
  · simp [State.setQuestCache, State.setChar, State.hasListener, Function.update_noteq h]

theorem hasListener_addListener (s : State) (ch p : CharPtr) :
    (s.addListener ch).hasListener p = if p = ch then true else s.hasListener p := by
  by_cases h : p = ch
  · subst h
    simp [State.addListener, State.setChar, State.hasListener]
  · simp [State.addListener, State.setChar, State.hasListener, Function.update_noteq h, h]

theorem hasListener_removeListener (s : State) (ch p : CharPtr) :
    (s.removeListener ch).hasListener p = if p = ch then false else s.hasListener p := by
  by_cases h : p = ch
  · subst h
    simp [State.removeListener, State.setChar, State.hasListener]
  · simp [State.removeListener, State.setChar, State.hasListener, Function.update_noteq h, h]

@[simp] theorem getDatabaseID_markDisconnected (s : State) (ch p : CharPtr) :
    (s.markDisconnected ch).getDatabaseID p = s.getDatabaseID p := by
  by_cases h : p = ch
  · subst h
    simp [State.markDisconnected, State.setChar, State.getDatabaseID]
  · simp [State.markDisconnected, State.setChar, State.getDatabaseID, Function.update_noteq h]

@[simp] theorem hasListener_markDisconnected (s : State) (ch p : CharPtr) :
    (s.markDisconnected ch).hasListener p = s.hasListener p := by
  by_cases h : p = ch
  · subst h
    simp [State.markDisconnected, State.setChar, State.hasListener]
  · simp [State.markDisconnected, State.setChar, State.hasListener, Function.update_noteq h]

@[simp] theorem questCache_markDisconnected (s : State) (ch p : CharPtr) :
    (s.markDisconnected ch).questCache p = s.questCache p := by
  by_cases h : p = ch
  · subst h
    simp [State.markDisconnected, State.setChar, State.questCache]
  · simp [State.markDisconnected, State.setChar, State.questCache, Function.update_noteq h]

@[simp] theorem pendingQuests_markDisconnected (s : State) (ch : CharPtr) :
    (s.markDisconnected ch).pendingQuests = s.pendingQuests := rfl

/-! ## The quest cache: `getQuestVar` and `setQuestVar` -/

/-! ## Facts about the state accessors -/

@[simp] theorem questCache_setQuestCache_self (s : State) (ch : CharPtr)
    (m : StdMap String String) : (s.setQuestCache ch m).questCache ch = m := by
  simp [State.setQuestCache, State.setChar, State.questCache]

@[simp] theorem getDatabaseID_setQuestCache (s : State) (ch p : CharPtr)
    (m : StdMap String String) : (s.setQuestCache ch m).getDatabaseID p = s.getDatabaseID p := by
  by_cases h : p = ch
  · subst h
    simp [State.setQuestCache, State.setChar, State.getDatabaseID]
  · simp [State.setQuestCache, State.setChar, State.getDatabaseID, Function.update_noteq h]

@[simp] theorem pendingQuests_setQuestCache (s : State) (ch : CharPtr)
    (m : StdMap String String) : (s.setQuestCache ch m).pendingQuests = s.pendingQuests := rfl

@[simp] theorem getDatabaseID_setPendingQuests (s : State) (m : PendingQuests) (p : CharPtr) :
    (s.setPendingQuests m).getDatabaseID p = s.getDatabaseID p := rfl

@[simp] theorem questCache_setPendingQuests (s : State) (m : PendingQuests) (p : CharPtr) :
    (s.setPendingQuests m).questCache p = s.questCache p := rfl

@[simp] theorem pendingQuests_setPendingQuests (s : State) (m : PendingQuests) :
    (s.setPendingQuests m).pendingQuests = m := rfl

@[simp] theorem chars_setPendingQuests (s : State) (m : PendingQuests) :
    (s.setPendingQuests m).chars = s.chars := rfl

@[simp] theorem getDatabaseID_addListener (s : State) (ch p : CharPtr) :
    (s.addListener ch).getDatabaseID p = s.getDatabaseID p := by
  by_cases h : p = ch
  · subst h
    simp [State.addListener, State.setChar, State.getDatabaseID]
  · simp [State.addListener, State.setChar, State.getDatabaseID, Function.update_noteq h]

@[simp] theorem questCache_addListener (s : State) (ch p : CharPtr) :
    (s.addListener ch).questCache p = s.questCache p := by
  by_cases h : p = ch
  · subst h
    simp [State.addListener, State.setChar, State.questCache]
  · simp [State.addListener, State.setChar, State.questCache, Function.update_noteq h]

@[simp] theorem pendingQuests_addListener (s : State) (ch : CharPtr) :
    (s.addListener ch).pendingQuests = s.pendingQuests := rfl

@[simp] theorem getDatabaseID_removeListener (s : State) (ch p : CharPtr) :
    (s.removeListener ch).getDatabaseID p = s.getDatabaseID p := by
  by_cases h : p = ch
  · subst h
    simp [State.removeListener, State.setChar, State.getDatabaseID]
  · simp [State.removeListener, State.setChar, State.getDatabaseID, Function.update_noteq h]

@[simp] theorem questCache_removeListener (s : State) (ch p : CharPtr) :
    (s.removeListener ch).questCache p = s.questCache p := by
  by_cases h : p = ch
  · subst h
    simp [State.removeListener, State.setChar, State.questCache]
  · simp [State.removeListener, State.setChar, State.questCache, Function.update_noteq h]

@[simp] theorem pendingQuests_removeListener (s : State) (ch : CharPtr) :
    (s.removeListener ch).pendingQuests = s.pendingQuests := rfl

/-! ## The quest cache: `getQuestVar` and `setQuestVar` -/

theorem find_questCache_setQuestVar (s : State) (ch : CharPtr) (name value : String) :
    StdMap.find ((setQuestVar s ch name value).1.questCache ch) name = some value := by
  unfold setQuestVar
  split
  · simp [StdMap.find_assign_self]
  · next old hold =>
    by_cases h : old = value
    · subst h
      simpa using hold
    · simp [h, StdMap.find_assign_self]

theorem setQuestVar_of_cached (s : State) (ch : CharPtr) (name value : String)
    (h : StdMap.find (s.questCache ch) name = some value) :
    setQuestVar s ch name value = (s, []) := by
  simp [setQuestVar, h]

/-- C6: after `setQuestVar(C, N, V)`, whatever the cache of `C` held before,
`getQuestVar(C, N)` returns `true` and yields `V`. -/
theorem getQuestVar_setQuestVar (s : State) (ch : CharPtr) (name value : String) :
    getQuestVar (setQuestVar s ch name value).1 ch name = some value :=
  find_questCache_setQuestVar s ch name value

/-- C7: `setQuestVar(C, N, V)` sends exactly one `updateQuestVar(C, N, V)` when
`N` is absent from the cache of `C` or cached with another value; when `N` is
already cached with `V` it sends nothing and returns the state as it was. -/
theorem setQuestVar_publishes (s : State) (ch : CharPtr) (name value : String) :
    (getQuestVar s ch name ≠ some value →
      (setQuestVar s ch name value).2 = [Effect.updateQuestVar ch name value]) ∧
    (getQuestVar s ch name = some value → setQuestVar s ch name value = (s, [])) := by
  refine ⟨?_, setQuestVar_of_cached s ch name value⟩
  unfold setQuestVar getQuestVar
  intro h
  split
  · rfl
  · next old hold =>
    have : old ≠ value := fun e => h (by rw [hold, e])
    simp [this]

/-- C7 (witness): at start-up the name is absent and one message is sent; once
the name is cached with `3`, writing `3` again sends nothing and returns the
state as it was. -/
theorem setQuestVar_publishes_witness :
    getQuestVar initialState 7 "slime_killed" ≠ some "3" ∧
    (setQuestVar initialState 7 "slime_killed" "3").2
      = [Effect.updateQuestVar 7 "slime_killed" "3"] ∧
    getQuestVar (setQuestVar initialState 7 "slime_killed" "3").1 7 "slime_killed" = some "3" ∧
    setQuestVar (setQuestVar initialState 7 "slime_killed" "3").1 7 "slime_killed" "3"
      = ((setQuestVar initialState 7 "slime_killed" "3").1, []) :=
  ⟨by decide,
    (setQuestVar_publishes initialState 7 "slime_killed" "3").1 (by decide),
    by decide,
    (setQuestVar_publishes (setQuestVar initialState 7 "slime_killed" "3").1 7
      "slime_killed" "3").2 (by decide)⟩

/-- C8: two consecutive calls `setQuestVar(C, N, V)` send at most one
`updateQuestVar` message between them: the second call sends nothing and
returns the state the first call produced. -/
theorem setQuestVar_twice (s : State) (ch : CharPtr) (name value : String) :
    setQuestVar (setQuestVar s ch name value).1 ch name value
        = ((setQuestVar s ch name value).1, []) ∧
    ((setQuestVar s ch name value).2
        ++ (setQuestVar (setQuestVar s ch name value).1 ch name value).2).length ≤ 1 := by
  have h2 := setQuestVar_of_cached (setQuestVar s ch name value).1 ch name value
    (find_questCache_setQuestVar s ch name value)
  refine ⟨h2, ?_⟩
  rw [h2]
  unfold setQuestVar
  split
  · simp
  · split <;> simp

/-! ## Registration and completion -/

theorem pendingFor_recordRefersTo {s : State} {ch : CharPtr} {name : String}
    {l : QuestCallbacks} (h : PendingFor s ch name l) : RecordRefersTo s ch := by
  obtain ⟨r, hr, hc, _⟩ := h
  intro r' hr'
  rw [hr] at hr'
  cases hr'
  exact hc

theorem pendingFor_pendingCallbacks {s : State} {ch : CharPtr} {name : String}
    {l : QuestCallbacks} (h : PendingFor s ch name l) :
    pendingCallbacks s (s.getDatabaseID ch) name = l := by
  obtain ⟨r, hr, _, hl⟩ := h
  simp [Quest.pendingCallbacks, hr, hl]

/-- A call of `recoverQuestVar` whose assertion holds sends one request and
appends the callback to the list waiting for the name. -/
theorem recoverQuestVar_registers (s : State) (ch : CharPtr) (name : String)
    (f : QuestCallback) (hN : getQuestVar s ch name = none) (hrec : RecordRefersTo s ch) :
    ∃ s1, recoverQuestVar s ch name f = Except.ok (s1, [Effect.requestQuestVar ch name]) ∧
      getQuestVar s1 ch name = none ∧ s1.getDatabaseID ch = s.getDatabaseID ch ∧
      PendingFor s1 ch name (pendingCallbacks s (s.getDatabaseID ch) name ++ [f]) := by
  unfold getQuestVar at hN
  unfold recoverQuestVar
  simp only [hN, ne_eq, not_true_eq_false, if_false]
  cases hfind : StdMap.find s.pendingQuests (s.getDatabaseID ch) with
  | none =>
    refine ⟨_, rfl, ?_, ?_, ?_⟩
    · simpa [getQuestVar] using hN
    · simp
    · refine ⟨pushBack { character := some ch, pendingVariables := [] } name f, ?_, rfl, ?_⟩
      · simp only [getDatabaseID_setPendingQuests, getDatabaseID_addListener,
          pendingQuests_setPendingQuests]
        exact StdMap.find_assign_self _ _ _
      · simp [pushBack, pendingCallbacks, hfind, StdMap.find, StdMap.assign]
  | some r =>
    refine ⟨_, rfl, ?_, rfl, ?_⟩
    · simpa [getQuestVar] using hN
    · refine ⟨_, StdMap.find_assign_self _ _ _, hrec r hfind, ?_⟩
      simp [pushBack, pendingCallbacks, hfind, StdMap.find_assign_self]

/-- A completion for a pending name writes the cache of the character the
record refers to and invokes the waiting callbacks in order. -/
theorem recoveredQuestVar_dispatches (s : State) (ch : CharPtr) (name value : String)
    (l : QuestCallbacks) (h : PendingFor s ch name l) :
    ∃ s2, recoveredQuestVar s (s.getDatabaseID ch) name value
        = Except.ok (s2, l.map (QuestCallback.invoke ch name value)) ∧
      getQuestVar s2 ch name = some value := by
  obtain ⟨r, hr, hc, hl⟩ := h
  unfold recoveredQuestVar
  simp only [hr, hc, hl]
  split
  · exact ⟨_, rfl, by simp [getQuestVar, StdMap.find_assign_self]⟩
  · exact ⟨_, rfl, by simp [getQuestVar, StdMap.find_assign_self]⟩

/-- The reaction `partialRemove` keeps the pending names of the character and
empties their callback lists; the quest cache is untouched. -/
theorem partialRemove_clears (s : State) (ch : CharPtr) (name : String)
    (l : QuestCallbacks) (h : PendingFor s ch name l) :
    PendingFor (partialRemove s ch) ch name [] ∧
      (partialRemove s ch).getDatabaseID ch = s.getDatabaseID ch ∧
      (partialRemove s ch).questCache ch = s.questCache ch := by
  obtain ⟨r, hr, hc, hl⟩ := h
  refine ⟨?_, rfl, rfl⟩
  refine ⟨_, StdMap.find_assign_self _ _ _, ?_, ?_⟩
  · simpa [subscript, hr] using hc
  · simp only [subscript, hr]
    rw [StdMap.find_map_values r.pendingVariables (fun _ => ([] : QuestCallbacks)) name, hl]
    rfl

theorem run_cons_ok {s s1 s2 : State} {op : Op} {ops : List Op} {e1 e2 : List Effect}
    (h1 : step s op = Except.ok (s1, e1)) (h2 : run s1 ops = Except.ok (s2, e2)) :
    run s (op :: ops) = Except.ok (s2, e1 ++ e2) := by
  simp [run, h1, h2]

/-- Successive registrations for one name all succeed, send one request each
and lengthen the list waiting for the name in the order of the calls. -/
theorem run_recover_registers (cbs : QuestCallbacks) (s : State) (ch : CharPtr)
    (name : String) (cb : QuestCallback) (hN : getQuestVar s ch name = none)
    (hrec : RecordRefersTo s ch) :
    ∃ s1, run s ((cb :: cbs).map (Op.recover ch name))
        = Except.ok (s1, (cb :: cbs).map (fun _ => Effect.requestQuestVar ch name)) ∧
      getQuestVar s1 ch name = none ∧ s1.getDatabaseID ch = s.getDatabaseID ch ∧
      PendingFor s1 ch name (pendingCallbacks s (s.getDatabaseID ch) name ++ cb :: cbs) := by
  induction cbs generalizing s cb with
  | nil =>
    obtain ⟨s1, h1, hN1, hid1, hp1⟩ := recoverQuestVar_registers s ch name cb hN hrec
    exact ⟨s1, by simp [run, step, h1], hN1, hid1, hp1⟩
  | cons cb2 rest ih =>
    obtain ⟨s1, h1, hN1, hid1, hp1⟩ := recoverQuestVar_registers s ch name cb hN hrec
    obtain ⟨s2, h2, hN2, hid2, hp2⟩ := ih s1 cb2 hN1 (pendingFor_recordRefersTo hp1)
    refine ⟨s2, ?_, hN2, hid2.trans hid1, ?_⟩
    · have h1' : step s (Op.recover ch name cb)
          = Except.ok (s1, [Effect.requestQuestVar ch name]) := h1
      exact run_cons_ok h1' h2
    · rw [pendingFor_pendingCallbacks hp1] at hp2
      simpa [List.append_assoc] using hp2

theorem invoke_injective (ch : CharPtr) (name value : String) :
    Function.Injective (QuestCallback.invoke ch name value) := by
  intro a b h
  cases a
  cases b
  simp only [QuestCallback.invoke, Effect.handlerCall.injEq] at h
  simp [h.1, h.2.2.2.2]

theorem recordRefersTo_of_find_none {s : State} {ch : CharPtr}
    (h : StdMap.find s.pendingQuests (s.getDatabaseID ch) = none) : RecordRefersTo s ch := by
  intro r hr
  rw [h] at hr
  cases hr

/-- C1 (as amended): from a state in which `N` is absent from the cache of `C`,
the record kept for the identity of `C` (if any) refers to `C`, and no callback
equal to `cb` is already waiting for `N`: `recoverQuestVar(C, N, cb)` followed by
`recoveredQuestVar(C.id, N, V)` invokes, in order, the callbacks that were
already waiting for `N` and then `cb`, each with `(C, N, V, data)`; the handler
of `cb` is thus invoked exactly once with `(C, N, V, cb.data)`, and afterwards
`getQuestVar(C, N)` returns `true` with `V`. -/
theorem recover_then_recovered (s : State) (ch : CharPtr) (name value : String)
    (f : QuestCallback) (hN : getQuestVar s ch name = none) (hrec : RecordRefersTo s ch)
    (hnew : f ∉ pendingCallbacks s (s.getDatabaseID ch) name) :
    ∃ s1 s2 e, recoverQuestVar s ch name f = Except.ok (s1, [Effect.requestQuestVar ch name]) ∧
      recoveredQuestVar s1 (s.getDatabaseID ch) name value = Except.ok (s2, e) ∧
      e = (pendingCallbacks s (s.getDatabaseID ch) name ++ [f]).map
            (QuestCallback.invoke ch name value) ∧
      e.count (f.invoke ch name value) = 1 ∧
      getQuestVar s2 ch name = some value := by
  obtain ⟨s1, h1, _, hid, hp⟩ := recoverQuestVar_registers s ch name f hN hrec
  obtain ⟨s2, h2, hget⟩ := recoveredQuestVar_dispatches s1 ch name value _ hp
  rw [hid] at h2
  refine ⟨s1, s2, _, h1, h2, rfl, ?_, hget⟩
  rw [List.count_map_of_injective _ _ (invoke_injective ch name value), List.count_append,
    List.count_eq_zero_of_not_mem hnew]
  simp

/-- C1 (witness): the amended statement at the start-up state, for the
character at address 7, the name `slime_killed` and the value `3`. -/
theorem recover_then_recovered_witness :
    getQuestVar initialState 7 "slime_killed" = none ∧
    ∃ s1 s2 e, recoverQuestVar initialState 7 "slime_killed" cbA
        = Except.ok (s1, [Effect.requestQuestVar 7 "slime_killed"]) ∧
      recoveredQuestVar s1 (initialState.getDatabaseID 7) "slime_killed" "3" = Except.ok (s2, e) ∧
      e = (pendingCallbacks initialState (initialState.getDatabaseID 7) "slime_killed" ++ [cbA]).map
            (QuestCallback.invoke 7 "slime_killed" "3") ∧
      e.count (cbA.invoke 7 "slime_killed" "3") = 1 ∧
      getQuestVar s2 7 "slime_killed" = some "3" :=
  ⟨by decide,
    recover_then_recovered initialState 7 "slime_killed" "3" cbA (by decide)
      (recordRefersTo_of_find_none (by decide)) (by decide)⟩

/-- C1 (counterexample): in the state reached from start-up by one earlier
`recoverQuestVar(7, slime_killed, cbA)`, the name is still absent from the
cache, and `recoverQuestVar(7, slime_killed, cbA)` followed by
`recoveredQuestVar(7, slime_killed, 3)` invokes the handler of `cbA` twice. -/
theorem recover_then_recovered_invokes_twice :
    (run initialState [Op.recover 7 "slime_killed" cbA]).effects
      = some [Effect.requestQuestVar 7 "slime_killed"] ∧
    getQuestVar waitingOnce 7 "slime_killed" = none ∧
    (run waitingOnce
        [Op.recover 7 "slime_killed" cbA, Op.recovered 7 "slime_killed" "3"]).effects
      = some [Effect.requestQuestVar 7 "slime_killed",
          Effect.handlerCall 1 7 "slime_killed" "3" 10,
          Effect.handlerCall 1 7 "slime_killed" "3" 10] ∧
    (run waitingOnce
        [Op.recover 7 "slime_killed" cbA, Op.recovered 7 "slime_killed" "3"]).effects.map
          (fun e => e.count (cbA.invoke 7 "slime_killed" "3"))
      = some 2 := by
  decide

/-! ## Completions after lifecycle events -/

/-- C2 (failing run): from the start-up state, the character at address 7 asks
for the names `a` and `b`; the completion for `a` detaches the listener while
the record still holds `b`; the permanent-disconnect event for the character
therefore never reaches `fullRemove`, and the record outlives the character.
The completion for `b` then writes the cache of the disconnected character and
invokes the waiting callback on it. -/
theorem recoveredQuestVar_serves_disconnected_character :
    (run initialState (detachingCalls ++ [Op.disconnected 7])).effects
      = some [Effect.requestQuestVar 7 "a", Effect.requestQuestVar 7 "b",
          Effect.handlerCall 1 7 "a" "1" 10] ∧
    ((stateAfter (detachingCalls ++ [Op.disconnected 7])).chars 7).disconnected = true ∧
    StdMap.find (stateAfter (detachingCalls ++ [Op.disconnected 7])).pendingQuests 7
      = some { character := some 7, pendingVariables := [("b", [cbB])] } ∧
    getQuestVar (stateAfter (detachingCalls ++ [Op.disconnected 7])) 7 "b" = none ∧
    (recoveredQuestVar (stateAfter (detachingCalls ++ [Op.disconnected 7])) 7 "b" "2").effects
      = some [Effect.handlerCall 2 7 "b" "2" 20] ∧
    (recoveredQuestVar (stateAfter (detachingCalls ++ [Op.disconnected 7])) 7 "b" "2").state.map
        (fun s => getQuestVar s 7 "b")
      = some (some "2") := by
  decide

/-- C3 (failing run): in the state reached from start-up by asking for `a` and
`b` and completing `a`, the listener is detached from the character at address
7 although its record remains.  Then `recoverQuestVar(7, c, cbC)`, the
permanent-disconnect event for the character and `recoveredQuestVar(7, c, 3)`
follow: the event does not reach `fullRemove`, and the completion is not a
no-op, it writes the cache of the character and invokes `cbC`. -/
theorem recoveredQuestVar_after_disconnect_not_noop :
    (run initialState detachingCalls).effects
      = some [Effect.requestQuestVar 7 "a", Effect.requestQuestVar 7 "b",
          Effect.handlerCall 1 7 "a" "1" 10] ∧
    getQuestVar (stateAfter detachingCalls) 7 "c" = none ∧
    (stateAfter detachingCalls).hasListener 7 = false ∧
    (run (stateAfter detachingCalls) [Op.recover 7 "c" cbC, Op.disconnected 7]).state.map
        (fun s => ((s.chars 7).disconnected, getQuestVar s 7 "c"))
      = some (true, none) ∧
    (run (stateAfter detachingCalls)
        [Op.recover 7 "c" cbC, Op.disconnected 7, Op.recovered 7 "c" "3"]).effects
      = some [Effect.requestQuestVar 7 "c", Effect.handlerCall 3 7 "c" "3" 30] ∧
    (run (stateAfter detachingCalls)
        [Op.recover 7 "c" cbC, Op.disconnected 7, Op.recovered 7 "c" "3"]).state.map
        (fun s => getQuestVar s 7 "c")
      = some (some "3") := by
  decide

/-- C4: with `N` absent from the cache of `C` and the record kept for the
identity of `C` (if any) referring to `C`, after the callbacks `cb1..cbk` are
registered by successive `recoverQuestVar(C, N, cbi)` and `partialRemove` has
run for `C`, the call `recoveredQuestVar(C.id, N, V)` invokes no callback at
all, and afterwards `getQuestVar(C, N)` returns `V`. -/
theorem recovered_after_partialRemove (s : State) (ch : CharPtr) (name value : String)
    (cb : QuestCallback) (cbs : QuestCallbacks) (hN : getQuestVar s ch name = none)
    (hrec : RecordRefersTo s ch) :
    ∃ s1 s3, run s ((cb :: cbs).map (Op.recover ch name))
        = Except.ok (s1, (cb :: cbs).map (fun _ => Effect.requestQuestVar ch name)) ∧
      recoveredQuestVar (partialRemove s1 ch) (s.getDatabaseID ch) name value
        = Except.ok (s3, []) ∧
      getQuestVar s3 ch name = some value := by
  obtain ⟨s1, h1, _, hid, hp⟩ := run_recover_registers cbs s ch name cb hN hrec
  obtain ⟨hp', hid', _⟩ := partialRemove_clears s1 ch name _ hp
  obtain ⟨s3, h3, hget⟩ := recoveredQuestVar_dispatches _ ch name value _ hp'
  rw [hid', hid] at h3
  exact ⟨s1, s3, h1, h3, hget⟩

/-- C4 (witness): two callbacks registered at start-up for the character at
address 7, then `partialRemove`, then the completion. -/
theorem recovered_after_partialRemove_witness :
    getQuestVar initialState 7 "slime_killed" = none ∧
    ∃ s1 s3, run initialState ([cbA, cbB].map (Op.recover 7 "slime_killed"))
        = Except.ok (s1, [cbA, cbB].map (fun _ => Effect.requestQuestVar 7 "slime_killed")) ∧
      recoveredQuestVar (partialRemove s1 7) (initialState.getDatabaseID 7) "slime_killed" "3"
        = Except.ok (s3, []) ∧
      getQuestVar s3 7 "slime_killed" = some "3" :=
  ⟨by decide,
    recovered_after_partialRemove initialState 7 "slime_killed" "3" cbA [cbB] (by decide)
      (recordRefersTo_of_find_none (by decide))⟩

/-- C5: with `N` absent from the cache of `C`, the record kept for the identity
of `C` (if any) referring to `C` and no callback waiting for `N` beforehand,
after `cb1..cbk` are registered in that order by successive
`recoverQuestVar(C, N, cbi)`, a single `recoveredQuestVar(C.id, N, V)` invokes
exactly `cb1, .., cbk`, in that order, each once and each with
`(C, N, V, cbi.data)`. -/
theorem recovered_invokes_in_registration_order (s : State) (ch : CharPtr)
    (name value : String) (cb : QuestCallback) (cbs : QuestCallbacks)
    (hN : getQuestVar s ch name = none) (hrec : RecordRefersTo s ch)
    (hfresh : pendingCallbacks s (s.getDatabaseID ch) name = []) :
    ∃ s1 s2, run s ((cb :: cbs).map (Op.recover ch name))
        = Except.ok (s1, (cb :: cbs).map (fun _ => Effect.requestQuestVar ch name)) ∧
      recoveredQuestVar s1 (s.getDatabaseID ch) name value
        = Except.ok (s2,
            (cb :: cbs).map (fun k => Effect.handlerCall k.handler ch name value k.data))
      := by
  obtain ⟨s1, h1, _, hid, hp⟩ := run_recover_registers cbs s ch name cb hN hrec
  obtain ⟨s2, h2, _⟩ := recoveredQuestVar_dispatches s1 ch name value _ hp
  rw [hid, hfresh, List.nil_append] at h2
  exact ⟨s1, s2, h1, h2⟩

/-- C5 (witness): three callbacks registered at start-up for the character at
address 7, the first and the last being equal. -/
theorem recovered_invokes_in_registration_order_witness :
    getQuestVar initialState 7 "slime_killed" = none ∧
    pendingCallbacks initialState (initialState.getDatabaseID 7) "slime_killed" = [] ∧
    ∃ s1 s2, run initialState ([cbA, cbB, cbA].map (Op.recover 7 "slime_killed"))
        = Except.ok (s1, [cbA, cbB, cbA].map (fun _ => Effect.requestQuestVar 7 "slime_killed")) ∧
      recoveredQuestVar s1 (initialState.getDatabaseID 7) "slime_killed" "3"
        = Except.ok (s2, [cbA, cbB, cbA].map
            (fun k => Effect.handlerCall k.handler 7 "slime_killed" "3" k.data)) :=
  ⟨by decide, by decide,
    recovered_invokes_in_registration_order initialState 7 "slime_killed" "3" cbA [cbB, cbA]
      (by decide) (recordRefersTo_of_find_none (by decide)) (by decide)⟩

/-! ## Duplicate and stale completions -/

theorem recoveredQuestVar_of_no_record (s : State) (id : Int) (name value : String)
    (h : StdMap.find s.pendingQuests id = none) :
    recoveredQuestVar s id name value = Except.ok (s, []) := by
  simp [recoveredQuestVar, h]

/-- C10: when `pendingQuests` holds no record for `id`, the call
`recoveredQuestVar(id, name, value)` returns the state as it was, the table, every
cache and every listener attachment included, and produces no effect: no
callback is invoked and nothing is sent. -/
theorem recoveredQuestVar_stale (s : State) (id : Int) (name value : String)
    (h : StdMap.find s.pendingQuests id = none) :
    recoveredQuestVar s id name value = Except.ok (s, []) :=
  recoveredQuestVar_of_no_record s id name value h

/-- C10 (witness): a completion for identity 7 at start-up. -/
theorem recoveredQuestVar_stale_witness :
    StdMap.find initialState.pendingQuests 7 = none ∧
    recoveredQuestVar initialState 7 "slime_killed" "3" = Except.ok (initialState, []) :=
  ⟨by decide, recoveredQuestVar_stale initialState 7 "slime_killed" "3" (by decide)⟩

/-- C9: from a state with no record for the identity of `C` and `N` absent from
the cache of `C`, after `recoverQuestVar(C, N, cb)` and
`recoveredQuestVar(C.id, N, V)` (which invokes `cb` once), a second identical
`recoveredQuestVar(C.id, N, V)` faults not, invokes nothing and returns the
state unchanged: `N` is still cached with `V` and the table still has no record
for the identity of `C`. -/
theorem recoveredQuestVar_duplicate (s : State) (ch : CharPtr) (name value : String)
    (f : QuestCallback) (hrec : StdMap.find s.pendingQuests (s.getDatabaseID ch) = none)
    (hN : getQuestVar s ch name = none) :
    ∃ s1 s2, recoverQuestVar s ch name f = Except.ok (s1, [Effect.requestQuestVar ch name]) ∧
      recoveredQuestVar s1 (s.getDatabaseID ch) name value
        = Except.ok (s2, [Effect.handlerCall f.handler ch name value f.data]) ∧
      recoveredQuestVar s2 (s.getDatabaseID ch) name value = Except.ok (s2, []) ∧
      getQuestVar s2 ch name = some value ∧
      StdMap.find s2.pendingQuests (s.getDatabaseID ch) = none := by
  unfold getQuestVar at hN
  have h1 : recoverQuestVar s ch name f = Except.ok
      ((s.addListener ch).setPendingQuests (StdMap.assign (s.addListener ch).pendingQuests
        (s.getDatabaseID ch) (pushBack { character := some ch, pendingVariables := [] } name f)),
        [Effect.requestQuestVar ch name]) := by
    simp only [recoverQuestVar, hN, ne_eq, not_true_eq_false, if_false, hrec]
  have h2 : ∃ s2, recoveredQuestVar ((s.addListener ch).setPendingQuests
        (StdMap.assign (s.addListener ch).pendingQuests (s.getDatabaseID ch)
          (pushBack { character := some ch, pendingVariables := [] } name f)))
        (s.getDatabaseID ch) name value
          = Except.ok (s2, [Effect.handlerCall f.handler ch name value f.data]) ∧
      getQuestVar s2 ch name = some value ∧
      StdMap.find s2.pendingQuests (s.getDatabaseID ch) = none := by
    simp only [recoveredQuestVar, pendingQuests_setPendingQuests, StdMap.find_assign_self]
    simp only [pushBack, StdMap.find, Option.getD_none, List.nil_append, StdMap.assign,
      if_true, StdMap.empty]
    rw [if_pos (by simp [StdMap.erase])]
    refine ⟨_, rfl, ?_, ?_⟩
    · simp [getQuestVar, StdMap.find_assign_self]
    · exact StdMap.find_erase_self _ _
  obtain ⟨s2, h2, hget, hnone⟩ := h2
  exact ⟨_, s2, h1, h2, recoveredQuestVar_of_no_record s2 _ name value hnone, hget, hnone⟩

/-- C9 (witness): identity 7, the name `slime_killed` and the value `3`, from
the start-up state. -/
theorem recoveredQuestVar_duplicate_witness :
    StdMap.find initialState.pendingQuests (initialState.getDatabaseID 7) = none ∧
    getQuestVar initialState 7 "slime_killed" = none ∧
    ∃ s1 s2, recoverQuestVar initialState 7 "slime_killed" cbA
        = Except.ok (s1, [Effect.requestQuestVar 7 "slime_killed"]) ∧
      recoveredQuestVar s1 (initialState.getDatabaseID 7) "slime_killed" "3"
        = Except.ok (s2, [Effect.handlerCall cbA.handler 7 "slime_killed" "3" cbA.data]) ∧
      recoveredQuestVar s2 (initialState.getDatabaseID 7) "slime_killed" "3"
        = Except.ok (s2, []) ∧
      getQuestVar s2 7 "slime_killed" = some "3" ∧
      StdMap.find s2.pendingQuests (initialState.getDatabaseID 7) = none :=
  ⟨by decide, by decide,
    recoveredQuestVar_duplicate initialState 7 "slime_killed" "3" cbA (by decide) (by decide)⟩

/-! ## The table stays sound

With unique identities, every call keeps `LedgerSound`; in particular the
record found under the identity of a character refers to that character in
every reachable state. -/

theorem exists_find_assign {K V : Type} [DecidableEq K] (m : StdMap K V) (k k' : K) (v : V)
    (h : ∃ r, StdMap.find m k' = some r) :
    ∃ r, StdMap.find (StdMap.assign m k v) k' = some r := by
  by_cases hk : k' = k
  · subst hk
    exact ⟨v, StdMap.find_assign_self _ _ _⟩
  · rw [StdMap.find_assign_ne _ _ hk]
    exact h

theorem find_assign_cases {K V : Type} [DecidableEq K] (m : StdMap K V) (k k' : K) (v r : V)
    (h : StdMap.find (StdMap.assign m k v) k' = some r) :
    (k' = k ∧ r = v) ∨ (k' ≠ k ∧ StdMap.find m k' = some r) := by
  by_cases hk : k' = k
  · subst hk
    rw [StdMap.find_assign_self] at h
    cases h
    exact Or.inl ⟨rfl, rfl⟩
  · rw [StdMap.find_assign_ne _ _ hk] at h
    exact Or.inr ⟨hk, h⟩

theorem recoverQuestVar_sound {s s' : State} {ch : CharPtr} {name : String}
    {f : QuestCallback} {e : List Effect} (hL : LedgerSound s)
    (h : recoverQuestVar s ch name f = Except.ok (s', e)) :
    (∀ p, s'.getDatabaseID p = s.getDatabaseID p) ∧ LedgerSound s' := by
  unfold recoverQuestVar at h
  split at h
  · cases h
  · cases hfind : StdMap.find s.pendingQuests (s.getDatabaseID ch) with
    | none =>
      simp only [hfind, Except.ok.injEq, Prod.mk.injEq] at h
      obtain ⟨rfl, _⟩ := h
      refine ⟨fun p => by simp, ?_, ?_⟩
      · intro id r hr
        simp only [pendingQuests_setPendingQuests, pendingQuests_addListener] at hr
        rcases find_assign_cases _ _ _ _ _ hr with ⟨rfl, rfl⟩ | ⟨_, hr'⟩
        · exact ⟨ch, rfl, by simp⟩
        · obtain ⟨p, hp, hid⟩ := hL.1 id r hr'
          exact ⟨p, hp, by simpa using hid⟩
      · intro p hp
        simp only [hasListener_setPendingQuests, hasListener_addListener] at hp
        simp only [pendingQuests_setPendingQuests, pendingQuests_addListener,
          getDatabaseID_setPendingQuests, getDatabaseID_addListener]
        by_cases hpc : p = ch
        · subst hpc
          exact ⟨_, StdMap.find_assign_self _ _ _⟩
        · simp only [hpc, if_false] at hp
          exact exists_find_assign _ _ _ _ (hL.2 p hp)
    | some r0 =>
      simp only [hfind, Except.ok.injEq, Prod.mk.injEq] at h
      obtain ⟨rfl, _⟩ := h
      refine ⟨fun p => rfl, ?_, ?_⟩
      · intro id r hr
        simp only [pendingQuests_setPendingQuests] at hr
        rcases find_assign_cases _ _ _ _ _ hr with ⟨rfl, rfl⟩ | ⟨_, hr'⟩
        · exact hL.1 _ r0 hfind
        · exact hL.1 id r hr'
      · intro p hp
        exact exists_find_assign _ _ _ _ (hL.2 p hp)

theorem recoveredQuestVar_sound {s s' : State} {id : Int} {name value : String}
    {e : List Effect} (hU : UniqueIDs s) (hL : LedgerSound s)
    (h : recoveredQuestVar s id name value = Except.ok (s', e)) :
    (∀ p, s'.getDatabaseID p = s.getDatabaseID p) ∧ LedgerSound s' := by
  unfold recoveredQuestVar at h
  cases hfind : StdMap.find s.pendingQuests id with
  | none =>
    simp only [hfind, Except.ok.injEq, Prod.mk.injEq] at h
    obtain ⟨rfl, _⟩ := h
    exact ⟨fun p => rfl, hL⟩
  | some r0 =>
    obtain ⟨ch, hch, hid⟩ := hL.1 id r0 hfind
    simp only [hfind, hch] at h
    have hdetach : ∀ p, (s.removeListener ch).hasListener p = true →
        p ≠ ch ∧ s.hasListener p = true := by
      intro p hp
      rw [hasListener_removeListener] at hp
      by_cases hpc : p = ch
      · simp [hpc] at hp
      · exact ⟨hpc, by simpa [hpc] using hp⟩
    cases hvar : StdMap.find r0.pendingVariables name with
    | none =>
      simp only [hvar, Except.ok.injEq, Prod.mk.injEq] at h
      obtain ⟨rfl, _⟩ := h
      refine ⟨fun p => by simp, ?_, ?_⟩
      · intro id' r hr
        obtain ⟨p, hp, hpid⟩ := hL.1 id' r hr
        exact ⟨p, hp, by simpa using hpid⟩
      · intro p hp
        obtain ⟨_, hp'⟩ := hdetach p hp
        simpa using hL.2 p hp'
    | some callbacks =>
      simp only [hvar] at h
      split at h
      · simp only [Except.ok.injEq, Prod.mk.injEq] at h
        obtain ⟨rfl, _⟩ := h
        refine ⟨fun p => by simp, ?_, ?_⟩
        · intro id' r hr
          simp only [pendingQuests_setPendingQuests, pendingQuests_setQuestCache,
            pendingQuests_removeListener] at hr
          have hne : id' ≠ id := by
            intro heq
            rw [heq, StdMap.find_erase_self] at hr
            cases hr
          rw [StdMap.find_erase_ne _ hne] at hr
          obtain ⟨p, hp, hpid⟩ := hL.1 id' r hr
          exact ⟨p, hp, by simpa using hpid⟩
        · intro p hp
          simp only [hasListener_setPendingQuests, hasListener_setQuestCache] at hp
          obtain ⟨hpc, hp'⟩ := hdetach p hp
          have hne : s.getDatabaseID p ≠ id := by
            intro heq
            exact hpc (hU p ch (heq.trans hid.symm))
          simp only [pendingQuests_setPendingQuests, pendingQuests_setQuestCache,
            pendingQuests_removeListener, getDatabaseID_setPendingQuests,
            getDatabaseID_setQuestCache, getDatabaseID_removeListener]
          rw [StdMap.find_erase_ne _ hne]
          exact hL.2 p hp'
      · simp only [Except.ok.injEq, Prod.mk.injEq] at h
        obtain ⟨rfl, _⟩ := h
        refine ⟨fun p => by simp, ?_, ?_⟩
        · intro id' r hr
          simp only [pendingQuests_setPendingQuests, pendingQuests_setQuestCache,
            pendingQuests_removeListener] at hr
          rcases find_assign_cases _ _ _ _ _ hr with ⟨rfl, rfl⟩ | ⟨_, hr'⟩
          · exact ⟨ch, rfl, by simpa using hid⟩
          · obtain ⟨p, hp, hpid⟩ := hL.1 id' r hr'
            exact ⟨p, hp, by simpa using hpid⟩
        · intro p hp
          simp only [hasListener_setPendingQuests, hasListener_setQuestCache] at hp
          obtain ⟨_, hp'⟩ := hdetach p hp
          simp only [pendingQuests_setPendingQuests, pendingQuests_setQuestCache,
            pendingQuests_removeListener, getDatabaseID_setPendingQuests,
            getDatabaseID_setQuestCache, getDatabaseID_removeListener]
          exact exists_find_assign _ _ _ _ (hL.2 p hp')

theorem setQuestVar_sound {s : State} {ch : CharPtr} {name value : String}
    (hL : LedgerSound s) :
    (∀ p, (setQuestVar s ch name value).1.getDatabaseID p = s.getDatabaseID p) ∧
      LedgerSound (setQuestVar s ch name value).1 := by
  have key : ∀ m, (∀ p, (s.setQuestCache ch m).getDatabaseID p = s.getDatabaseID p) ∧
      LedgerSound (s.setQuestCache ch m) := by
    intro m
    refine ⟨fun p => by simp, ?_, ?_⟩
    · intro id r hr
      obtain ⟨p, hp, hpid⟩ := hL.1 id r hr
      exact ⟨p, hp, by simpa using hpid⟩
    · intro p hp
      simpa using hL.2 p (by simpa using hp)
  unfold setQuestVar
  split
  · exact key _
  · split
    · exact ⟨fun p => rfl, hL⟩
    · exact key _

theorem removedEvent_sound {s : State} {ch : CharPtr} (hL : LedgerSound s) :
    (∀ p, (removedEvent s ch).getDatabaseID p = s.getDatabaseID p) ∧
      LedgerSound (removedEvent s ch) := by
  unfold removedEvent
  split
  · next hatt =>
    obtain ⟨r0, hr0⟩ := hL.2 ch hatt
    refine ⟨fun p => rfl, ?_, ?_⟩
    · intro id r hr
      simp only [partialRemove, subscript, hr0, pendingQuests_setPendingQuests] at hr
      rcases find_assign_cases _ _ _ _ _ hr with ⟨rfl, rfl⟩ | ⟨_, hr'⟩
      · exact hL.1 _ r0 hr0
      · exact hL.1 id r hr'
    · intro p hp
      exact exists_find_assign _ _ _ _ (hL.2 p hp)
  · exact ⟨fun p => rfl, hL⟩

theorem disconnectedEvent_sound {s : State} {ch : CharPtr} (hU : UniqueIDs s)
    (hL : LedgerSound s) :
    (∀ p, (disconnectedEvent s ch).getDatabaseID p = s.getDatabaseID p) ∧
      LedgerSound (disconnectedEvent s ch) := by
  unfold disconnectedEvent
  split
  · refine ⟨fun p => by simp [fullRemove], ?_, ?_⟩
    · intro id r hr
      simp only [fullRemove, pendingQuests_markDisconnected, pendingQuests_setPendingQuests,
        pendingQuests_removeListener, getDatabaseID_removeListener] at hr
      have hne : id ≠ s.getDatabaseID ch := by
        intro heq
        rw [heq, StdMap.find_erase_self] at hr
        cases hr
      rw [StdMap.find_erase_ne _ hne] at hr
      obtain ⟨p, hp, hpid⟩ := hL.1 id r hr
      exact ⟨p, hp, by simpa [fullRemove] using hpid⟩
    · intro p hp
      simp only [fullRemove, hasListener_markDisconnected, hasListener_setPendingQuests,
        hasListener_removeListener] at hp
      by_cases hpc : p = ch
      · simp [hpc] at hp
      · simp only [hpc, if_false] at hp
        have hne : s.getDatabaseID p ≠ s.getDatabaseID ch := fun heq => hpc (hU p ch heq)
        simp only [fullRemove, pendingQuests_markDisconnected, pendingQuests_setPendingQuests,
          pendingQuests_removeListener, getDatabaseID_removeListener,
          getDatabaseID_markDisconnected, getDatabaseID_setPendingQuests]
        rw [StdMap.find_erase_ne _ hne]
        exact hL.2 p hp
  · refine ⟨fun p => by simp, ?_, ?_⟩
    · intro id r hr
      obtain ⟨p, hp, hpid⟩ := hL.1 id r hr
      exact ⟨p, hp, by simpa using hpid⟩
    · intro p hp
      simpa using hL.2 p (by simpa using hp)

theorem step_sound {s s' : State} {op : Op} {e : List Effect} (hU : UniqueIDs s)
    (hL : LedgerSound s) (h : step s op = Except.ok (s', e)) :
    UniqueIDs s' ∧ LedgerSound s' := by
  have lift : (∀ p, s'.getDatabaseID p = s.getDatabaseID p) ∧ LedgerSound s' →
      UniqueIDs s' ∧ LedgerSound s' := by
    rintro ⟨hid, hL'⟩
    refine ⟨fun p q hpq => hU p q ?_, hL'⟩
    rw [← hid p, ← hid q]
    exact hpq
  apply lift
  cases op with
  | recover ch name f => exact recoverQuestVar_sound hL h
  | recovered id name value => exact recoveredQuestVar_sound hU hL h
  | set ch name value =>
    simp only [step, Except.ok.injEq] at h
    have hs : s' = (setQuestVar s ch name value).1 := by rw [h]
    rw [hs]
    exact setQuestVar_sound hL
  | removed ch =>
    simp only [step, Except.ok.injEq, Prod.mk.injEq] at h
    rw [← h.1]
    exact removedEvent_sound hL
  | disconnected ch =>
    simp only [step, Except.ok.injEq, Prod.mk.injEq] at h
    rw [← h.1]
    exact disconnectedEvent_sound hU hL

theorem run_sound (ops : List Op) {s s' : State} {e : List Effect} (hU : UniqueIDs s)
    (hL : LedgerSound s) (h : run s ops = Except.ok (s', e)) :
    UniqueIDs s' ∧ LedgerSound s' := by
  induction ops generalizing s e with
  | nil =>
    simp only [run, Except.ok.injEq, Prod.mk.injEq] at h
    rw [← h.1]
    exact ⟨hU, hL⟩
  | cons op ops ih =>
    unfold run at h
    split at h
    · cases h
    · next s1 e1 h1 =>
      obtain ⟨hU1, hL1⟩ := step_sound hU hL h1
      split at h
      · cases h
      · next s2 e2 h2 =>
        simp only [Except.ok.injEq, Prod.mk.injEq] at h
        rw [h.1] at h2
        exact ih hU1 hL1 h2

theorem initial_ledgerSound {s : State} (h : Initial s) : LedgerSound s := by
  obtain ⟨hpq, hl, _⟩ := h
  refine ⟨?_, ?_⟩
  · intro id r hr
    rw [hpq] at hr
    cases hr
  · intro p hp
    rw [hl p] at hp
    cases hp

/-- In a reachable state the record found under the identity of a character
refers to that character. -/
theorem reachable_recordRefersTo {s : State} (h : Reachable s) (ch : CharPtr) :
    RecordRefersTo s ch := by
  obtain ⟨s0, ops, e, hinit, hrun⟩ := h
  obtain ⟨hU, hL⟩ := run_sound ops hinit.2.2 (initial_ledgerSound hinit) hrun
  intro r hr
  obtain ⟨p, hp, hpid⟩ := hL.1 _ r hr
  rw [hU p ch hpid] at hp
  exact hp

theorem initialState_initial : Initial initialState := by
  refine ⟨rfl, fun p => rfl, ?_⟩
  intro p q h
  simpa [State.getDatabaseID, initialState] using h

/-! ## Unexpected completions and the assertion of `recoverQuestVar` -/

/-- C11: when a record exists for `id` but `name` is not one of its pending
variables, `recoveredQuestVar(id, name, value)` only logs the error: the table
(the record, its names and their callback lists included) and every quest
cache are as before and no callback is invoked.  The state returned is the
given one with the listener detached from the character of the record, which
the function does before it looks the name up. -/
theorem recoveredQuestVar_unexpected (s : State) (id : Int) (name value : String)
    (r : PendingQuest) (ch : CharPtr) (hr : StdMap.find s.pendingQuests id = some r)
    (hc : r.character = some ch) (hn : StdMap.find r.pendingVariables name = none) :
    recoveredQuestVar s id name value = Except.ok (s.removeListener ch, [Effect.logError]) ∧
      (s.removeListener ch).pendingQuests = s.pendingQuests ∧
      (∀ p, (s.removeListener ch).questCache p = s.questCache p) ∧
      (∀ n, pendingEntry (s.removeListener ch) id n = pendingEntry s id n) := by
  refine ⟨?_, rfl, fun p => questCache_removeListener s ch p, fun n => rfl⟩
  simp only [recoveredQuestVar, hr, hc, hn]

/-- C11 (witness): the character at address 7 waits for `a` and a completion
for `b` arrives. -/
theorem recoveredQuestVar_unexpected_witness :
    StdMap.find waitingForA.pendingQuests 7 = some recordForA ∧
    recoveredQuestVar waitingForA 7 "b" "2"
      = Except.ok (waitingForA.removeListener 7, [Effect.logError]) ∧
    (waitingForA.removeListener 7).pendingQuests = waitingForA.pendingQuests ∧
    (∀ p, (waitingForA.removeListener 7).questCache p = waitingForA.questCache p) ∧
    (∀ n, pendingEntry (waitingForA.removeListener 7) 7 n = pendingEntry waitingForA 7 n) :=
  ⟨by decide,
    recoveredQuestVar_unexpected waitingForA 7 "b" "2" recordForA 7 (by decide) (by decide)
      (by decide)⟩

/-- C12: `recoverQuestVar(C, N, cb)` fails, on its assertion, exactly when `N`
is present in the quest cache of `C`.  The assertion is the first statement: a
failing call yields no state and no effect, so no record is created or changed,
no listener is attached and no request is sent; a call that does not fail
returns a state and sends the request. -/
theorem recoverQuestVar_asserts (s : State) (ch : CharPtr) (name : String)
    (f : QuestCallback) :
    (recoverQuestVar s ch name f = Except.error Fault.assertionFailed
        ↔ getQuestVar s ch name ≠ none) ∧
    ((recoverQuestVar s ch name f).state = none ↔ getQuestVar s ch name ≠ none) ∧
    ((recoverQuestVar s ch name f).effects = none ↔ getQuestVar s ch name ≠ none) ∧
    ((recoverQuestVar s ch name f).effects = some [Effect.requestQuestVar ch name]
        ↔ getQuestVar s ch name = none) := by
  unfold recoverQuestVar getQuestVar
  by_cases h : StdMap.find (s.questCache ch) name = none
  · simp only [h, ne_eq, not_true_eq_false, if_false]
    cases StdMap.find s.pendingQuests (s.getDatabaseID ch) <;>
      simp [Result.state, Result.effects]
  · simp [h, Result.state, Result.effects]

/-- C12 (witness): once `slime_killed` is cached for the character at address 7,
asking to recover it fails on the assertion. -/
theorem recoverQuestVar_asserts_witness :
    getQuestVar (setQuestVar initialState 7 "slime_killed" "3").1 7 "slime_killed" ≠ none ∧
    recoverQuestVar (setQuestVar initialState 7 "slime_killed" "3").1 7 "slime_killed" cbA
      = Except.error Fault.assertionFailed ∧
    getQuestVar initialState 7 "slime_killed" = none ∧
    (recoverQuestVar initialState 7 "slime_killed" cbA).effects
      = some [Effect.requestQuestVar 7 "slime_killed"] :=
  ⟨by decide,
    (recoverQuestVar_asserts (setQuestVar initialState 7 "slime_killed" "3").1 7
      "slime_killed" cbA).1.2 (by decide),
    by decide,
    (recoverQuestVar_asserts initialState 7 "slime_killed" cbA).2.2.2.2 (by decide)⟩

/-! ## The listener reactions -/

/-- C15: for a character `C` that has a record, `partialRemove` keeps the
pending variable names of the record as they were and makes the callback list
of every one of them empty; the characters (hence the listener attached to `C`
and every quest cache) and the records of all other identities are unchanged.
The reaction has no effect outside the table: it invokes no callback. -/
theorem partialRemove_step (s : State) (ch : CharPtr) (r : PendingQuest)
    (hr : StdMap.find s.pendingQuests (s.getDatabaseID ch) = some r) :
    (∃ r1, StdMap.find (partialRemove s ch).pendingQuests (s.getDatabaseID ch) = some r1 ∧
      r1.character = r.character ∧
      r1.pendingVariables.map Prod.fst = r.pendingVariables.map Prod.fst ∧
      (∀ p ∈ r1.pendingVariables, p.2 = [])) ∧
    (∀ name, pendingEntry (partialRemove s ch) (s.getDatabaseID ch) name
        = (pendingEntry s (s.getDatabaseID ch) name).map (fun _ => [])) ∧
    (partialRemove s ch).chars = s.chars ∧
    (partialRemove s ch).hasListener ch = s.hasListener ch ∧
    (partialRemove s ch).questCache ch = s.questCache ch ∧
    (∀ id, id ≠ s.getDatabaseID ch →
      StdMap.find (partialRemove s ch).pendingQuests id = StdMap.find s.pendingQuests id) := by
  have hfind : StdMap.find (partialRemove s ch).pendingQuests (s.getDatabaseID ch)
      = some { r with pendingVariables :=
          r.pendingVariables.map (fun p => (p.1, ([] : QuestCallbacks))) } := by
    simp only [partialRemove, subscript, hr, pendingQuests_setPendingQuests]
    exact StdMap.find_assign_self _ _ _
  refine ⟨⟨_, hfind, rfl, ?_, ?_⟩, ?_, rfl, rfl, rfl, ?_⟩
  · simp [List.map_map, Function.comp_def]
  · intro p hp
    simp only [List.mem_map] at hp
    obtain ⟨q, _, rfl⟩ := hp
    rfl
  · intro name
    simp only [pendingEntry, hfind, hr, Option.map_some']
    exact StdMap.find_map_values r.pendingVariables (fun _ => ([] : QuestCallbacks)) name
  · intro id hid
    simp only [partialRemove, pendingQuests_setPendingQuests]
    exact StdMap.find_assign_ne _ _ hid

/-- C15 (witness): `partialRemove` for the character at address 7 while it
waits for `a`. -/
theorem partialRemove_step_witness :
    StdMap.find waitingForA.pendingQuests (waitingForA.getDatabaseID 7) = some recordForA ∧
    pendingEntry (partialRemove waitingForA 7) (waitingForA.getDatabaseID 7) "a"
      = (pendingEntry waitingForA (waitingForA.getDatabaseID 7) "a").map (fun _ => []) ∧
    (partialRemove waitingForA 7).hasListener 7 = waitingForA.hasListener 7 :=
  ⟨by decide,
    (partialRemove_step waitingForA 7 recordForA (by decide)).2.1 "a",
    (partialRemove_step waitingForA 7 recordForA (by decide)).2.2.2.1⟩

/-- C16: `fullRemove` for a character `C` detaches the listener from `C` and
leaves no record under the identity of `C`, whatever the record held and
whether or not there was one; the records of all other identities, the
listeners of all other characters and every quest cache are unchanged.  The
reaction has no effect outside the state: it invokes no callback. -/
theorem fullRemove_step (s : State) (ch : CharPtr) :
    (fullRemove s ch).hasListener ch = false ∧
    StdMap.find (fullRemove s ch).pendingQuests (s.getDatabaseID ch) = none ∧
    (∀ id, id ≠ s.getDatabaseID ch →
      StdMap.find (fullRemove s ch).pendingQuests id = StdMap.find s.pendingQuests id) ∧
    (∀ p, p ≠ ch → (fullRemove s ch).hasListener p = s.hasListener p) ∧
    (∀ p, (fullRemove s ch).questCache p = s.questCache p) ∧
    (∀ p, (fullRemove s ch).getDatabaseID p = s.getDatabaseID p) := by
  refine ⟨?_, ?_, ?_, ?_, ?_, ?_⟩
  · simp [fullRemove, hasListener_removeListener]
  · simp only [fullRemove, pendingQuests_setPendingQuests, pendingQuests_removeListener,
      getDatabaseID_removeListener]
    exact StdMap.find_erase_self _ _
  · intro id hid
    simp only [fullRemove, pendingQuests_setPendingQuests, pendingQuests_removeListener,
      getDatabaseID_removeListener]
    exact StdMap.find_erase_ne _ hid
  · intro p hp
    simp [fullRemove, hasListener_removeListener, hp]
  · intro p
    simp [fullRemove]
  · intro p
    simp [fullRemove]

/-- C16 (witness): `fullRemove` for the character at address 7 while it waits
for `a`; the (absent) record of identity 8 is as before. -/
theorem fullRemove_step_witness :
    StdMap.find waitingForA.pendingQuests 7 = some recordForA ∧
    (fullRemove waitingForA 7).hasListener 7 = false ∧
    StdMap.find (fullRemove waitingForA 7).pendingQuests (waitingForA.getDatabaseID 7) = none ∧
    StdMap.find (fullRemove waitingForA 7).pendingQuests 8
      = StdMap.find waitingForA.pendingQuests 8 :=
  ⟨by decide, (fullRemove_step waitingForA 7).1, (fullRemove_step waitingForA 7).2.1,
    (fullRemove_step waitingForA 7).2.2.1 8 (by decide)⟩

/-! ## One registration, one completion -/

theorem recoverQuestVar_effects {s s' : State} {ch : CharPtr} {name : String}
    {f : QuestCallback} {e : List Effect}
    (h : recoverQuestVar s ch name f = Except.ok (s', e)) :
    e = [Effect.requestQuestVar ch name] := by
  unfold recoverQuestVar at h
  split at h
  · cases h
  · cases hfind : StdMap.find s.pendingQuests (s.getDatabaseID ch) <;>
      simp only [hfind, Except.ok.injEq, Prod.mk.injEq] at h <;> exact h.2.symm

theorem recoverQuestVar_total (s : State) (ch : CharPtr) (name : String) (f : QuestCallback)
    (hN : getQuestVar s ch name = none) :
    ∃ s', recoverQuestVar s ch name f = Except.ok (s', [Effect.requestQuestVar ch name]) ∧
      getQuestVar s' ch name = none := by
  unfold getQuestVar at hN
  unfold recoverQuestVar
  simp only [hN, ne_eq, not_true_eq_false, if_false]
  cases StdMap.find s.pendingQuests (s.getDatabaseID ch) with
  | none => exact ⟨_, rfl, by simpa [getQuestVar] using hN⟩
  | some r => exact ⟨_, rfl, by simpa [getQuestVar] using hN⟩

theorem getQuestVar_none_of_recoverQuestVar {s s' : State} {ch : CharPtr} {name : String}
    {f : QuestCallback} {e : List Effect}
    (h : recoverQuestVar s ch name f = Except.ok (s', e)) : getQuestVar s ch name = none := by
  unfold recoverQuestVar at h
  split at h
  · cases h
  · next hN => simpa [getQuestVar] using hN

theorem run_recover_total (cbs : QuestCallbacks) (s : State) (ch : CharPtr) (name : String)
    (hN : getQuestVar s ch name = none) :
    ∃ s', run s (cbs.map (Op.recover ch name))
      = Except.ok (s', cbs.map (fun _ => Effect.requestQuestVar ch name)) := by
  induction cbs generalizing s with
  | nil => exact ⟨s, rfl⟩
  | cons cb rest ih =>
    obtain ⟨s1, h1, hN1⟩ := recoverQuestVar_total s ch name cb hN
    obtain ⟨s2, h2⟩ := ih s1 hN1
    have h1' : step s (Op.recover ch name cb)
        = Except.ok (s1, [Effect.requestQuestVar ch name]) := h1
    exact ⟨s2, run_cons_ok h1' h2⟩

/-- C17: a call `recoverQuestVar(C, N, cb)` that returns sends exactly one
`requestQuestVar(C, N)`, whether or not a record for `C` or an entry for `N`
existed (so `k` successive calls send `k` requests); afterwards the list of `N`
is the former list with `cb` appended at the end, the lists of all other names
and the records of all other identities are as before, and every quest cache
is unchanged.  When the call had to create the record the listener is attached
to `C`; when the record existed no character is touched. -/
theorem recoverQuestVar_step (s s' : State) (ch : CharPtr) (name : String)
    (f : QuestCallback) (e : List Effect)
    (h : recoverQuestVar s ch name f = Except.ok (s', e)) :
    e = [Effect.requestQuestVar ch name] ∧
    (∀ cbs : QuestCallbacks, ∃ s2, run s (cbs.map (Op.recover ch name))
      = Except.ok (s2, cbs.map (fun _ => Effect.requestQuestVar ch name))) ∧
    pendingEntry s' (s.getDatabaseID ch) name
      = some (pendingCallbacks s (s.getDatabaseID ch) name ++ [f]) ∧
    (∀ n, n ≠ name →
      pendingEntry s' (s.getDatabaseID ch) n = pendingEntry s (s.getDatabaseID ch) n) ∧
    (∀ id, id ≠ s.getDatabaseID ch →
      StdMap.find s'.pendingQuests id = StdMap.find s.pendingQuests id) ∧
    (∀ p, s'.questCache p = s.questCache p) ∧
    (StdMap.find s.pendingQuests (s.getDatabaseID ch) = none →
      s'.hasListener ch = true ∧ ∀ p, p ≠ ch → s'.hasListener p = s.hasListener p) ∧
    (StdMap.find s.pendingQuests (s.getDatabaseID ch) ≠ none → s'.chars = s.chars) := by
  refine ⟨recoverQuestVar_effects h,
    fun cbs => run_recover_total cbs s ch name (getQuestVar_none_of_recoverQuestVar h), ?_⟩
  unfold recoverQuestVar at h
  split at h
  · cases h
  · cases hfind : StdMap.find s.pendingQuests (s.getDatabaseID ch) with
    | none =>
      simp only [hfind, Except.ok.injEq, Prod.mk.injEq] at h
      obtain ⟨rfl, _⟩ := h
      refine ⟨?_, ?_, ?_, fun p => by simp, ?_, ?_⟩
      · simp [pendingEntry, pendingCallbacks, hfind, StdMap.find_assign_self, pushBack,
          StdMap.find, StdMap.assign]
      · intro n hn
        simp [pendingEntry, hfind, StdMap.find_assign_self, pushBack, StdMap.find,
          StdMap.assign, Ne.symm hn]
      · intro id hid
        simp only [pendingQuests_setPendingQuests, pendingQuests_addListener]
        exact StdMap.find_assign_ne _ _ hid
      · intro _
        refine ⟨by simp [hasListener_addListener], ?_⟩
        intro p hp
        simp [hasListener_addListener, hp]
      · intro hne
        exact absurd rfl hne
    | some r =>
      simp only [hfind, Except.ok.injEq, Prod.mk.injEq] at h
      obtain ⟨rfl, _⟩ := h
      refine ⟨?_, ?_, ?_, fun p => rfl, ?_, fun _ => rfl⟩
      · simp [pendingEntry, pendingCallbacks, hfind, StdMap.find_assign_self, pushBack]
      · intro n hn
        simp only [pendingEntry, hfind, pendingQuests_setPendingQuests,
          StdMap.find_assign_self, pushBack]
        exact StdMap.find_assign_ne _ _ hn
      · intro id hid
        simp only [pendingQuests_setPendingQuests]
        exact StdMap.find_assign_ne _ _ hid
      · intro hnone
        cases hnone

theorem find_ne_none_iff {K V : Type} [DecidableEq K] (m : StdMap K V) (k : K) :
    StdMap.find m k ≠ none ↔ ∃ p ∈ m, p.1 = k := by
  induction m with
  | nil => simp [StdMap.find]
  | cons q t ih =>
    obtain ⟨k', v'⟩ := q
    by_cases h : k' = k
    · simp [StdMap.find, h]
    · simp [StdMap.find, h, ih]

theorem erase_eq_nil_iff {K V : Type} [DecidableEq K] (m : StdMap K V) (k : K) :
    StdMap.erase m k = [] ↔ ∀ k', StdMap.find m k' ≠ none → k' = k := by
  constructor
  · intro h k' hk'
    obtain ⟨p, hp, rfl⟩ := (find_ne_none_iff m k').1 hk'
    by_contra hne
    have : p ∈ StdMap.erase m k := by
      simp only [StdMap.erase, List.mem_filter]
      exact ⟨hp, by simpa using hne⟩
    rw [h] at this
    cases this
  · intro h
    simp only [StdMap.erase, List.filter_eq_nil_iff]
    intro p hp
    have := h p.1 ((find_ne_none_iff m p.1).2 ⟨p, hp, rfl⟩)
    simp [this]

/-- C18: when `recoveredQuestVar(id, N, V)` finds `N` pending in the record of
`id`, it invokes the callbacks of `N` and nothing else; afterwards `N` is not a
pending name of `id`, the record of `id` is gone exactly when `N` was its only
pending name, every other name of the record keeps the list it had, and the
records of all other identities are as before. -/
theorem recoveredQuestVar_cleanup (s : State) (id : Int) (name value : String)
    (r : PendingQuest) (ch : CharPtr) (l : QuestCallbacks)
    (hr : StdMap.find s.pendingQuests id = some r) (hc : r.character = some ch)
    (hl : StdMap.find r.pendingVariables name = some l) :
    ∃ s', recoveredQuestVar s id name value
        = Except.ok (s', l.map (QuestCallback.invoke ch name value)) ∧
      pendingEntry s' id name = none ∧
      (StdMap.find s'.pendingQuests id = none
        ↔ ∀ n, StdMap.find r.pendingVariables n ≠ none → n = name) ∧
      (∀ n, n ≠ name → pendingEntry s' id n = pendingEntry s id n) ∧
      (∀ id', id' ≠ id →
        StdMap.find s'.pendingQuests id' = StdMap.find s.pendingQuests id') := by
  unfold recoveredQuestVar
  simp only [hr, hc, hl]
  by_cases hempty : StdMap.erase r.pendingVariables name = []
  · have honly := (erase_eq_nil_iff r.pendingVariables name).1 hempty
    rw [if_pos (by simp [StdMap.empty, hempty])]
    refine ⟨_, rfl, ?_, ?_, ?_, ?_⟩
    · simp [pendingEntry, StdMap.find_erase_self]
    · simp only [pendingQuests_setPendingQuests, pendingQuests_setQuestCache,
        pendingQuests_removeListener, StdMap.find_erase_self, true_iff]
      exact honly
    · intro n hn
      have hnone : StdMap.find r.pendingVariables n = none := by
        by_contra hne
        exact hn (honly n hne)
      simp [pendingEntry, StdMap.find_erase_self, hr, hnone]
    · intro id' hid
      simp only [pendingQuests_setPendingQuests, pendingQuests_setQuestCache,
        pendingQuests_removeListener]
      exact StdMap.find_erase_ne _ hid
  · rw [if_neg (by simpa [StdMap.empty] using hempty)]
    refine ⟨_, rfl, ?_, ?_, ?_, ?_⟩
    · simp [pendingEntry, StdMap.find_assign_self, StdMap.find_erase_self]
    · simp only [pendingQuests_setPendingQuests, pendingQuests_setQuestCache,
        pendingQuests_removeListener, StdMap.find_assign_self]
      constructor
      · intro h
        cases h
      · intro h
        exact absurd ((erase_eq_nil_iff r.pendingVariables name).2 h) hempty
    · intro n hn
      simp only [pendingEntry, pendingQuests_setPendingQuests, pendingQuests_setQuestCache,
        pendingQuests_removeListener, StdMap.find_assign_self, hr]
      exact StdMap.find_erase_ne _ hn
    · intro id' hid
      simp only [pendingQuests_setPendingQuests, pendingQuests_setQuestCache,
        pendingQuests_removeListener]
      exact StdMap.find_assign_ne _ _ hid

/-- C18 (witness): the character at address 7 waits for `a` and `b`, and the
completion for `a` arrives. -/
theorem recoveredQuestVar_cleanup_witness :
    StdMap.find waitingForAB.pendingQuests 7 = some recordForAB ∧
    ∃ s', recoveredQuestVar waitingForAB 7 "a" "1"
        = Except.ok (s', [cbA].map (QuestCallback.invoke 7 "a" "1")) ∧
      pendingEntry s' 7 "a" = none ∧
      (StdMap.find s'.pendingQuests 7 = none
        ↔ ∀ n, StdMap.find recordForAB.pendingVariables n ≠ none → n = "a") ∧
      (∀ n, n ≠ "a" → pendingEntry s' 7 n = pendingEntry waitingForAB 7 n) ∧
      (∀ id', id' ≠ 7 →
        StdMap.find s'.pendingQuests id' = StdMap.find waitingForAB.pendingQuests id') :=
  ⟨by decide,
    recoveredQuestVar_cleanup waitingForAB 7 "a" "1" recordForAB 7 [cbA] (by decide)
      (by decide) (by decide)⟩

/-! ## A completion overwrites a local write -/

theorem pendingFor_setQuestVar {s : State} {ch : CharPtr} {name : String}
    {l : QuestCallbacks} (c : CharPtr) (n v : String) (h : PendingFor s ch name l) :
    PendingFor (setQuestVar s c n v).1 ch name l ∧
      (setQuestVar s c n v).1.getDatabaseID ch = s.getDatabaseID ch := by
  have key : ∀ m, PendingFor (s.setQuestCache c m) ch name l ∧
      (s.setQuestCache c m).getDatabaseID ch = s.getDatabaseID ch := by
    intro m
    obtain ⟨r, hr, hc, hl⟩ := h
    exact ⟨⟨r, by simpa using hr, hc, hl⟩, by simp⟩
  unfold setQuestVar
  split
  · exact key _
  · split
    · exact ⟨h, rfl⟩
    · exact key _

/-- C20: when `N` is pending for `C` with the callbacks `l` waiting, and
`setQuestVar(C, N, V1)` is called before `recoveredQuestVar(C.id, N, V2)`
arrives, the completion replaces the local write: `getQuestVar(C, N)` yields
`V1` before it and `V2` after it.  The effects of the completion are the
invocations of `l` only: it sends no `updateQuestVar` and no
`requestQuestVar`. -/
theorem recoveredQuestVar_overwrites (s : State) (ch : CharPtr) (name v1 v2 : String)
    (l : QuestCallbacks) (h : PendingFor s ch name l) :
    getQuestVar (setQuestVar s ch name v1).1 ch name = some v1 ∧
    ∃ s2 e, recoveredQuestVar (setQuestVar s ch name v1).1 (s.getDatabaseID ch) name v2
        = Except.ok (s2, e) ∧
      e = l.map (QuestCallback.invoke ch name v2) ∧
      getQuestVar s2 ch name = some v2 ∧
      (∀ x ∈ e, (∀ c n v, x ≠ Effect.updateQuestVar c n v) ∧
        (∀ c n, x ≠ Effect.requestQuestVar c n)) := by
  refine ⟨find_questCache_setQuestVar s ch name v1, ?_⟩
  obtain ⟨hp, hid⟩ := pendingFor_setQuestVar ch name v1 h
  obtain ⟨s2, h2, hget⟩ := recoveredQuestVar_dispatches _ ch name v2 l hp
  rw [hid] at h2
  refine ⟨s2, _, h2, rfl, hget, ?_⟩
  intro x hx
  simp only [List.mem_map] at hx
  obtain ⟨k, _, rfl⟩ := hx
  refine ⟨?_, ?_⟩
  · intro c n v hcontra
    cases hcontra
  · intro c n hcontra
    cases hcontra

/-- C20 (witness): the character at address 7 waits for `a`; `a` is written
locally with `5` and the completion then delivers `1`. -/
theorem recoveredQuestVar_overwrites_witness :
    getQuestVar (setQuestVar waitingForA 7 "a" "5").1 7 "a" = some "5" ∧
    ∃ s2 e, recoveredQuestVar (setQuestVar waitingForA 7 "a" "5").1
        (waitingForA.getDatabaseID 7) "a" "1" = Except.ok (s2, e) ∧
      e = [cbA].map (QuestCallback.invoke 7 "a" "1") ∧
      getQuestVar s2 7 "a" = some "1" ∧
      (∀ x ∈ e, (∀ c n v, x ≠ Effect.updateQuestVar c n v) ∧
        (∀ c n, x ≠ Effect.requestQuestVar c n)) :=
  recoveredQuestVar_overwrites waitingForA 7 "a" "5" "1" [cbA]
    ⟨recordForA, by decide, by decide, by decide⟩

/-! ## The listener and the records in reachable states -/

/-- C13 (failing run): from the start-up state the character at address 7 asks
for `a` and `b`; the listener is then attached and the record exists.  The
completion for `a` detaches the listener although the record stays, holding
`b`: in the reachable state that results a record exists for identity 7 while
the listener is attached to no character of that identity. -/
theorem recoveredQuestVar_detaches_while_record_remains :
    (run initialState detachingCalls).effects
      = some [Effect.requestQuestVar 7 "a", Effect.requestQuestVar 7 "b",
          Effect.handlerCall 1 7 "a" "1" 10] ∧
    waitingForAB.hasListener 7 = true ∧
    StdMap.find waitingForAB.pendingQuests 7 = some recordForAB ∧
    (recoveredQuestVar waitingForAB 7 "a" "1").state.map
        (fun s => (s.hasListener 7, StdMap.find s.pendingQuests (s.getDatabaseID 7)))
      = some (false, some recordForB) ∧
    (stateAfter detachingCalls).hasListener 7 = false ∧
    StdMap.find (stateAfter detachingCalls).pendingQuests
        ((stateAfter detachingCalls).getDatabaseID 7)
      = some recordForB := by
  decide

theorem assign_ne_nil {K V : Type} [DecidableEq K] (m : StdMap K V) (k : K) (v : V) :
    StdMap.assign m k v ≠ [] := by
  cases m with
  | nil => simp [StdMap.assign]
  | cons p t =>
    obtain ⟨k', v'⟩ := p
    by_cases h : k' = k <;> simp [StdMap.assign, h]

theorem pendingQuests_setQuestVar (s : State) (ch : CharPtr) (name value : String) :
    (setQuestVar s ch name value).1.pendingQuests = s.pendingQuests := by
  unfold setQuestVar
  split
  · rfl
  · split <;> rfl

theorem step_listenerSound {s s' : State} {op : Op} {e : List Effect} (hS : ListenerSound s)
    (h : step s op = Except.ok (s', e)) : ListenerSound s' := by
  cases op with
  | recover ch name f =>
    simp only [step, recoverQuestVar] at h
    split at h
    · cases h
    · cases hfind : StdMap.find s.pendingQuests (s.getDatabaseID ch) with
      | none =>
        simp only [hfind, Except.ok.injEq, Prod.mk.injEq] at h
        obtain ⟨rfl, _⟩ := h
        intro p hp
        simp only [hasListener_setPendingQuests, hasListener_addListener] at hp
        simp only [pendingQuests_setPendingQuests, pendingQuests_addListener,
          getDatabaseID_setPendingQuests, getDatabaseID_addListener]
        by_cases hpc : p = ch
        · subst hpc
          exact ⟨_, StdMap.find_assign_self _ _ _, rfl⟩
        · simp only [hpc, if_false] at hp
          obtain ⟨r, hr, hrc⟩ := hS p hp
          have hne : s.getDatabaseID p ≠ s.getDatabaseID ch := by
            intro heq
            rw [heq, hfind] at hr
            cases hr
          exact ⟨r, by rw [StdMap.find_assign_ne _ _ hne]; exact hr, hrc⟩
      | some r0 =>
        simp only [hfind, Except.ok.injEq, Prod.mk.injEq] at h
        obtain ⟨rfl, _⟩ := h
        intro p hp
        obtain ⟨r, hr, hrc⟩ := hS p hp
        simp only [pendingQuests_setPendingQuests, getDatabaseID_setPendingQuests]
        by_cases heq : s.getDatabaseID p = s.getDatabaseID ch
        · rw [heq, hfind] at hr
          cases hr
          rw [heq]
          exact ⟨_, StdMap.find_assign_self _ _ _, hrc⟩
        · exact ⟨r, by rw [StdMap.find_assign_ne _ _ heq]; exact hr, hrc⟩
  | recovered id name value =>
    simp only [step, recoveredQuestVar] at h
    cases hfind : StdMap.find s.pendingQuests id with
    | none =>
      simp only [hfind, Except.ok.injEq, Prod.mk.injEq] at h
      obtain ⟨rfl, _⟩ := h
      exact hS
    | some r0 =>
      simp only [hfind] at h
      cases hch : r0.character with
      | none =>
        simp only [hch] at h
        cases h
      | some ch =>
        simp only [hch] at h
        have hdetach : ∀ p, (s.removeListener ch).hasListener p = true →
            ∃ r, StdMap.find s.pendingQuests (s.getDatabaseID p) = some r ∧
              r.character = some p ∧ s.getDatabaseID p ≠ id := by
          intro p hp
          rw [hasListener_removeListener] at hp
          by_cases hpc : p = ch
          · simp [hpc] at hp
          · simp only [hpc, if_false] at hp
            obtain ⟨r, hr, hrc⟩ := hS p hp
            refine ⟨r, hr, hrc, ?_⟩
            intro heq
            rw [heq, hfind] at hr
            cases hr
            rw [hch] at hrc
            cases hrc
            exact hpc rfl
        cases hvar : StdMap.find r0.pendingVariables name with
        | none =>
          simp only [hvar, Except.ok.injEq, Prod.mk.injEq] at h
          obtain ⟨rfl, _⟩ := h
          intro p hp
          obtain ⟨r, hr, hrc, _⟩ := hdetach p hp
          exact ⟨r, by simpa using hr, hrc⟩
        | some callbacks =>
          simp only [hvar] at h
          split at h
          · simp only [Except.ok.injEq, Prod.mk.injEq] at h
            obtain ⟨rfl, _⟩ := h
            intro p hp
            simp only [hasListener_setPendingQuests, hasListener_setQuestCache] at hp
            obtain ⟨r, hr, hrc, hne⟩ := hdetach p hp
            simp only [pendingQuests_setPendingQuests, pendingQuests_setQuestCache,
              pendingQuests_removeListener, getDatabaseID_setPendingQuests,
              getDatabaseID_setQuestCache, getDatabaseID_removeListener]
            exact ⟨r, by rw [StdMap.find_erase_ne _ hne]; exact hr, hrc⟩
          · simp only [Except.ok.injEq, Prod.mk.injEq] at h
            obtain ⟨rfl, _⟩ := h
            intro p hp
            simp only [hasListener_setPendingQuests, hasListener_setQuestCache] at hp
            obtain ⟨r, hr, hrc, hne⟩ := hdetach p hp
            simp only [pendingQuests_setPendingQuests, pendingQuests_setQuestCache,
              pendingQuests_removeListener, getDatabaseID_setPendingQuests,
              getDatabaseID_setQuestCache, getDatabaseID_removeListener]
            exact ⟨r, by rw [StdMap.find_assign_ne _ _ hne]; exact hr, hrc⟩
  | set ch name value =>
    simp only [step, Except.ok.injEq] at h
    have hs : s' = (setQuestVar s ch name value).1 := by rw [h]
    have key : ∀ m, ListenerSound (s.setQuestCache ch m) := by
      intro m p hp
      obtain ⟨r, hr, hrc⟩ := hS p (by simpa using hp)
      exact ⟨r, by simpa using hr, hrc⟩
    rw [hs]
    unfold setQuestVar
    split
    · exact key _
    · split
      · exact hS
      · exact key _
  | removed ch =>
    simp only [step, Except.ok.injEq, Prod.mk.injEq] at h
    obtain ⟨rfl, _⟩ := h
    unfold removedEvent
    split
    · next hatt =>
      obtain ⟨r0, hr0, hc0⟩ := hS ch hatt
      intro p hp
      obtain ⟨r, hr, hrc⟩ := hS p hp
      simp only [partialRemove, subscript, hr0, pendingQuests_setPendingQuests,
        getDatabaseID_setPendingQuests]
      by_cases heq : s.getDatabaseID p = s.getDatabaseID ch
      · rw [heq, hr0] at hr
        cases hr
        rw [heq]
        exact ⟨_, StdMap.find_assign_self _ _ _, hrc⟩
      · exact ⟨r, by rw [StdMap.find_assign_ne _ _ heq]; exact hr, hrc⟩
    · exact hS
  | disconnected ch =>
    simp only [step, Except.ok.injEq, Prod.mk.injEq] at h
    obtain ⟨rfl, _⟩ := h
    unfold disconnectedEvent
    split
    · next hatt =>
      obtain ⟨r0, hr0, hc0⟩ := hS ch hatt
      intro p hp
      simp only [fullRemove, hasListener_markDisconnected, hasListener_setPendingQuests,
        hasListener_removeListener] at hp
      by_cases hpc : p = ch
      · simp [hpc] at hp
      · simp only [hpc, if_false] at hp
        obtain ⟨r, hr, hrc⟩ := hS p hp
        have hne : s.getDatabaseID p ≠ s.getDatabaseID ch := by
          intro heq
          rw [heq, hr0] at hr
          cases hr
          rw [hc0] at hrc
          cases hrc
          exact hpc rfl
        simp only [fullRemove, pendingQuests_markDisconnected, pendingQuests_setPendingQuests,
          pendingQuests_removeListener, getDatabaseID_removeListener,
          getDatabaseID_markDisconnected, getDatabaseID_setPendingQuests]
        exact ⟨r, by rw [StdMap.find_erase_ne _ hne]; exact hr, hrc⟩
    · intro p hp
      obtain ⟨r, hr, hrc⟩ := hS p (by simpa using hp)
      exact ⟨r, by simpa using hr, hrc⟩

theorem step_noEmptyRecord {s s' : State} {op : Op} {e : List Effect} (hS : ListenerSound s)
    (hE : NoEmptyRecord s) (h : step s op = Except.ok (s', e)) : NoEmptyRecord s' := by
  cases op with
  | recover ch name f =>
    simp only [step, recoverQuestVar] at h
    split at h
    · cases h
    · cases hfind : StdMap.find s.pendingQuests (s.getDatabaseID ch) <;>
        simp only [hfind, Except.ok.injEq, Prod.mk.injEq] at h <;>
        obtain ⟨rfl, _⟩ := h <;>
        intro id r hr <;>
        simp only [pendingQuests_setPendingQuests, pendingQuests_addListener] at hr <;>
        rcases find_assign_cases _ _ _ _ _ hr with ⟨_, rfl⟩ | ⟨_, hr'⟩
      · exact assign_ne_nil _ _ _
      · exact hE id r hr'
      · exact assign_ne_nil _ _ _
      · exact hE id r hr'
  | recovered id name value =>
    simp only [step, recoveredQuestVar] at h
    cases hfind : StdMap.find s.pendingQuests id with
    | none =>
      simp only [hfind, Except.ok.injEq, Prod.mk.injEq] at h
      obtain ⟨rfl, _⟩ := h
      exact hE
    | some r0 =>
      simp only [hfind] at h
      cases hch : r0.character with
      | none =>
        simp only [hch] at h
        cases h
      | some ch =>
        simp only [hch] at h
        cases hvar : StdMap.find r0.pendingVariables name with
        | none =>
          simp only [hvar, Except.ok.injEq, Prod.mk.injEq] at h
          obtain ⟨rfl, _⟩ := h
          exact hE
        | some callbacks =>
          simp only [hvar] at h
          split at h
          · simp only [Except.ok.injEq, Prod.mk.injEq] at h
            obtain ⟨rfl, _⟩ := h
            intro id' r hr
            simp only [pendingQuests_setPendingQuests, pendingQuests_setQuestCache,
              pendingQuests_removeListener] at hr
            by_cases hid : id' = id
            · rw [hid, StdMap.find_erase_self] at hr
              cases hr
            · rw [StdMap.find_erase_ne _ hid] at hr
              exact hE id' r hr
          · next hne =>
            simp only [Except.ok.injEq, Prod.mk.injEq] at h
            obtain ⟨rfl, _⟩ := h
            intro id' r hr
            simp only [pendingQuests_setPendingQuests, pendingQuests_setQuestCache,
              pendingQuests_removeListener] at hr
            rcases find_assign_cases _ _ _ _ _ hr with ⟨_, rfl⟩ | ⟨_, hr'⟩
            · intro hnil
              apply hne
              simp only at hnil
              simp [StdMap.empty, hnil]
            · exact hE id' r hr'
  | set ch name value =>
    simp only [step, Except.ok.injEq] at h
    have hs : s' = (setQuestVar s ch name value).1 := by rw [h]
    intro id r hr
    rw [hs, pendingQuests_setQuestVar] at hr
    exact hE id r hr
  | removed ch =>
    simp only [step, Except.ok.injEq, Prod.mk.injEq] at h
    obtain ⟨rfl, _⟩ := h
    unfold removedEvent
    split
    · next hatt =>
      obtain ⟨r0, hr0, _⟩ := hS ch hatt
      intro id r hr
      simp only [partialRemove, subscript, hr0, pendingQuests_setPendingQuests] at hr
      rcases find_assign_cases _ _ _ _ _ hr with ⟨_, rfl⟩ | ⟨_, hr'⟩
      · have h0 := hE _ r0 hr0
        simpa using h0
      · exact hE id r hr'
    · exact hE
  | disconnected ch =>
    simp only [step, Except.ok.injEq, Prod.mk.injEq] at h
    obtain ⟨rfl, _⟩ := h
    unfold disconnectedEvent
    split
    · intro id r hr
      simp only [fullRemove, pendingQuests_markDisconnected, pendingQuests_setPendingQuests,
        pendingQuests_removeListener, getDatabaseID_removeListener] at hr
      by_cases hid : id = s.getDatabaseID ch
      · rw [hid, StdMap.find_erase_self] at hr
        cases hr
      · rw [StdMap.find_erase_ne _ hid] at hr
        exact hE id r hr
    · intro id r hr
      exact hE id r hr

theorem run_noEmptyRecord (ops : List Op) {s s' : State} {e : List Effect}
    (hS : ListenerSound s) (hE : NoEmptyRecord s) (h : run s ops = Except.ok (s', e)) :
    NoEmptyRecord s' := by
  induction ops generalizing s e with
  | nil =>
    simp only [run, Except.ok.injEq, Prod.mk.injEq] at h
    rw [← h.1]
    exact hE
  | cons op ops ih =>
    unfold run at h
    split at h
    · cases h
    · next s1 e1 h1 =>
      have hS1 := step_listenerSound hS h1
      have hE1 := step_noEmptyRecord hS hE h1
      split at h
      · cases h
      · next s2 e2 h2 =>
        simp only [Except.ok.injEq, Prod.mk.injEq] at h
        rw [h.1] at h2
        exact ih hS1 hE1 h2

theorem run_eq_stateAfter (ops : List Op) (e : List Effect)
    (h : (run initialState ops).effects = some e) :
    run initialState ops = Except.ok (stateAfter ops, e) := by
  cases hrun : run initialState ops with
  | error x => simp [hrun, Result.effects] at h
  | ok r =>
    obtain ⟨s, e'⟩ := r
    simp only [hrun, Result.effects, Option.some.injEq] at h
    simp [stateAfter, hrun, h]

theorem stateAfter_reachable (ops : List Op) (e : List Effect)
    (h : (run initialState ops).effects = some e) : Reachable (stateAfter ops) := by
  cases hrun : run initialState ops with
  | error x => simp [hrun, Result.effects] at h
  | ok r =>
    obtain ⟨s, e'⟩ := r
    have hs : stateAfter ops = s := by simp [stateAfter, hrun]
    rw [hs]
    exact ⟨initialState, ops, e', initialState_initial, hrun⟩

/-- C14: in every state reached from a state with an empty table and the
listener attached to no character, by `recoverQuestVar`, `recoveredQuestVar`,
`setQuestVar` and the two lifecycle events, each delivered to its reaction
(`partialRemove`, `fullRemove`) only while the listener is attached to the
character, every record of `pendingQuests` has at least one pending variable
name: the map of variables of a record is never empty. -/
theorem reachable_noEmptyRecord (s0 s : State) (ops : List Op) (e : List Effect)
    (h0 : s0.pendingQuests = []) (hl : ∀ p, s0.hasListener p = false)
    (hrun : run s0 ops = Except.ok (s, e)) (id : Int) (r : PendingQuest)
    (hr : StdMap.find s.pendingQuests id = some r) :
    r.pendingVariables ≠ [] ∧ ∃ name l, StdMap.find r.pendingVariables name = some l := by
  have hS0 : ListenerSound s0 := by
    intro p hp
    rw [hl p] at hp
    cases hp
  have hE0 : NoEmptyRecord s0 := by
    intro id' r' hr'
    rw [h0] at hr'
    cases hr'
  have hne := run_noEmptyRecord ops hS0 hE0 hrun id r hr
  refine ⟨hne, ?_⟩
  cases hpv : r.pendingVariables with
  | nil => exact absurd hpv hne
  | cons p t =>
    obtain ⟨k, v⟩ := p
    exact ⟨k, v, by simp [StdMap.find]⟩

/-- C14 (witness): the record left for identity 7 after `detachingCalls`. -/
theorem reachable_noEmptyRecord_witness :
    initialState.pendingQuests = [] ∧
    StdMap.find (stateAfter detachingCalls).pendingQuests 7 = some recordForB ∧
    recordForB.pendingVariables ≠ [] ∧
    ∃ name l, StdMap.find recordForB.pendingVariables name = some l :=
  ⟨rfl, by decide,
    reachable_noEmptyRecord initialState (stateAfter detachingCalls) detachingCalls
      [Effect.requestQuestVar 7 "a", Effect.requestQuestVar 7 "b",
        Effect.handlerCall 1 7 "a" "1" 10]
      rfl (fun _ => rfl)
      (run_eq_stateAfter detachingCalls
        [Effect.requestQuestVar 7 "a", Effect.requestQuestVar 7 "b",
          Effect.handlerCall 1 7 "a" "1" 10] (by decide))
      7 recordForB (by decide)⟩

/-! ## Every registration is served at most once -/

theorem total_assign {K V : Type} [DecidableEq K] (w : V → Nat) (m : StdMap K V) (k : K)
    (v : V) :
    StdMap.total w (StdMap.assign m k v) + ((StdMap.find m k).map w).getD 0
      = StdMap.total w m + w v := by
  induction m with
  | nil => simp [StdMap.total, StdMap.assign, StdMap.find]
  | cons p t ih =>
    obtain ⟨k', v'⟩ := p
    by_cases h : k' = k
    · simp only [StdMap.total, StdMap.assign, StdMap.find, h, if_true, List.map_cons,
        List.sum_cons, Option.map_some', Option.getD_some]
      omega
    · simp only [StdMap.total, StdMap.assign, StdMap.find, h, if_false, List.map_cons,
        List.sum_cons] at ih ⊢
      omega

theorem total_erase_le {K V : Type} [DecidableEq K] (w : V → Nat) (m : StdMap K V) (k : K) :
    StdMap.total w (StdMap.erase m k) ≤ StdMap.total w m := by
  induction m with
  | nil => simp [StdMap.total, StdMap.erase]
  | cons p t ih =>
    obtain ⟨k', v'⟩ := p
    by_cases h : k' = k
    · simp only [StdMap.total, StdMap.erase, List.filter_cons, h, ne_eq, not_true_eq_false,
        decide_False, List.map_cons, List.sum_cons] at ih ⊢
      simp only [Bool.false_eq_true, if_false]
      omega
    · simp only [StdMap.total, StdMap.erase, List.filter_cons, h, ne_eq, not_false_eq_true,
        decide_True, if_true, List.map_cons, List.sum_cons] at ih ⊢
      omega

theorem total_erase {K V : Type} [DecidableEq K] (w : V → Nat) (m : StdMap K V) (k : K) :
    StdMap.total w (StdMap.erase m k) + ((StdMap.find m k).map w).getD 0
      ≤ StdMap.total w m := by
  induction m with
  | nil => simp [StdMap.total, StdMap.erase, StdMap.find]
  | cons p t ih =>
    obtain ⟨k', v'⟩ := p
    by_cases h : k' = k
    · have hle := total_erase_le w t k
      simp only [StdMap.total, StdMap.erase, List.filter_cons, h, ne_eq, not_true_eq_false,
        decide_False, List.map_cons, List.sum_cons, StdMap.find, if_true, Option.map_some',
        Option.getD_some] at hle ⊢
      simp only [Bool.false_eq_true, if_false]
      omega
    · simp only [StdMap.total, StdMap.erase, List.filter_cons, h, ne_eq, not_false_eq_true,
        decide_True, if_true, List.map_cons, List.sum_cons, StdMap.find, if_false] at ih ⊢
      omega

theorem total_map_zero {K V : Type} (w : V → Nat) (g : V → V) (m : StdMap K V)
    (h : ∀ v, w (g v) = 0) : StdMap.total w (m.map (fun p => (p.1, g p.2))) = 0 := by
  induction m with
  | nil => simp [StdMap.total]
  | cons p t ih =>
    simp only [StdMap.total, List.map_cons, List.sum_cons] at ih ⊢
    rw [h, ih]

theorem isCallOf_invoke (f k : QuestCallback) (ch : CharPtr) (name value : String) :
    Effect.isCallOf f (QuestCallback.invoke ch name value k) = decide (k = f) := by
  cases k
  cases f
  simp [Effect.isCallOf, QuestCallback.invoke]

theorem invocationCount_map_invoke (f : QuestCallback) (ch : CharPtr) (name value : String)
    (l : QuestCallbacks) :
    invocationCount f (l.map (QuestCallback.invoke ch name value)) = l.count f := by
  induction l with
  | nil => simp [invocationCount]
  | cons k t ih =>
    simp only [invocationCount, List.map_cons, List.countP_cons, isCallOf_invoke,
      List.count_cons] at ih ⊢
    rw [ih]
    by_cases h : k = f <;> simp [h]

theorem heldCount_pushBack (f g : QuestCallback) (r : PendingQuest) (name : String) :
    (pushBack r name g).heldCount f = r.heldCount f + (if g = f then 1 else 0) := by
  have hA := total_assign (fun l : QuestCallbacks => l.count f) r.pendingVariables name
    ((StdMap.find r.pendingVariables name).getD [] ++ [g])
  have hg : List.count f [g] = if g = f then 1 else 0 := by
    by_cases h : g = f <;> simp [List.count_cons, h]
  simp only [PendingQuest.heldCount, pushBack]
  cases hfind : StdMap.find r.pendingVariables name with
  | none =>
    simp only [hfind, Option.map_none', Option.getD_none, List.nil_append, hg] at hA ⊢
    omega
  | some l =>
    simp only [hfind, Option.map_some', Option.getD_some, List.count_append, hg] at hA ⊢
    omega

theorem total_assign_le {K V : Type} [DecidableEq K] (w : V → Nat) (m : StdMap K V) (k : K)
    (v : V) (hv : w v = 0) : StdMap.total w (StdMap.assign m k v) ≤ StdMap.total w m := by
  have := total_assign w m k v
  omega

theorem invocationCount_setQuestVar (f : QuestCallback) (s : State) (ch : CharPtr)
    (name value : String) : invocationCount f (setQuestVar s ch name value).2 = 0 := by
  unfold setQuestVar
  split
  · rfl
  · split <;> rfl

/-- One call: the invocations of `f` it makes, added to the copies of `f` the
table holds afterwards, do not exceed the copies held before, plus one when the
call registers `f`. -/
theorem step_count (f : QuestCallback) {s s' : State} {op : Op} {e : List Effect}
    (h : step s op = Except.ok (s', e)) :
    invocationCount f e + heldCount f s'
      ≤ heldCount f s + (if Op.registers f op = true then 1 else 0) := by
  cases op with
  | recover ch name g =>
    simp only [step, recoverQuestVar] at h
    split at h
    · cases h
    · have hreg : (if Op.registers f (Op.recover ch name g) = true then 1 else 0)
          = (if g = f then 1 else 0) := by
        by_cases hgf : g = f <;> simp [Op.registers, hgf]
      have hinv : invocationCount f [Effect.requestQuestVar ch name] = 0 := rfl
      rw [hreg]
      cases hfind : StdMap.find s.pendingQuests (s.getDatabaseID ch) with
      | none =>
        simp only [hfind, Except.ok.injEq, Prod.mk.injEq] at h
        obtain ⟨rfl, rfl⟩ := h
        have hA := total_assign (PendingQuest.heldCount f) s.pendingQuests
          (s.getDatabaseID ch)
          (pushBack { character := some ch, pendingVariables := [] } name g)
        have h0 : PendingQuest.heldCount f { character := some ch, pendingVariables := [] }
            = 0 := rfl
        rw [hfind, heldCount_pushBack, h0] at hA
        simp only [Option.map_none', Option.getD_none] at hA
        rw [hinv]
        simp only [heldCount, pendingQuests_setPendingQuests, pendingQuests_addListener]
        omega
      | some r =>
        simp only [hfind, Except.ok.injEq, Prod.mk.injEq] at h
        obtain ⟨rfl, rfl⟩ := h
        have hA := total_assign (PendingQuest.heldCount f) s.pendingQuests
          (s.getDatabaseID ch) (pushBack r name g)
        rw [hfind, heldCount_pushBack] at hA
        simp only [Option.map_some', Option.getD_some] at hA
        rw [hinv]
        simp only [heldCount, pendingQuests_setPendingQuests]
        omega
  | recovered id name value =>
    simp only [step, recoveredQuestVar] at h
    have hreg : (if Op.registers f (Op.recovered id name value) = true then 1 else 0) = 0 := rfl
    rw [hreg]
    cases hfind : StdMap.find s.pendingQuests id with
    | none =>
      simp only [hfind, Except.ok.injEq, Prod.mk.injEq] at h
      obtain ⟨rfl, rfl⟩ := h
      simp [invocationCount]
    | some r =>
      simp only [hfind] at h
      cases hch : r.character with
      | none =>
        simp only [hch] at h
        cases h
      | some ch =>
        simp only [hch] at h
        cases hvar : StdMap.find r.pendingVariables name with
        | none =>
          simp only [hvar, Except.ok.injEq, Prod.mk.injEq] at h
          obtain ⟨rfl, rfl⟩ := h
          have hinv : invocationCount f [Effect.logError] = 0 := rfl
          rw [hinv]
          simp [heldCount]
        | some l =>
          simp only [hvar] at h
          have hE := total_erase (fun l : QuestCallbacks => l.count f) r.pendingVariables name
          rw [hvar] at hE
          simp only [Option.map_some', Option.getD_some] at hE
          split at h
          · simp only [Except.ok.injEq, Prod.mk.injEq] at h
            obtain ⟨rfl, rfl⟩ := h
            have hP := total_erase (PendingQuest.heldCount f) s.pendingQuests id
            rw [hfind] at hP
            simp only [Option.map_some', Option.getD_some] at hP
            have hW : PendingQuest.heldCount f r
                = StdMap.total (fun l : QuestCallbacks => l.count f) r.pendingVariables := rfl
            simp only [heldCount, pendingQuests_setPendingQuests, pendingQuests_setQuestCache,
              pendingQuests_removeListener, invocationCount_map_invoke]
            omega
          · simp only [Except.ok.injEq, Prod.mk.injEq] at h
            obtain ⟨rfl, rfl⟩ := h
            have hA := total_assign (PendingQuest.heldCount f) s.pendingQuests id
              { character := some ch,
                pendingVariables := StdMap.erase r.pendingVariables name }
            rw [hfind] at hA
            simp only [Option.map_some', Option.getD_some] at hA
            have hW : PendingQuest.heldCount f r
                = StdMap.total (fun l : QuestCallbacks => l.count f) r.pendingVariables := rfl
            have hW1 : PendingQuest.heldCount f
                { character := some ch,
                  pendingVariables := StdMap.erase r.pendingVariables name }
                = StdMap.total (fun l : QuestCallbacks => l.count f)
                    (StdMap.erase r.pendingVariables name) := rfl
            simp only [heldCount, pendingQuests_setPendingQuests, pendingQuests_setQuestCache,
              pendingQuests_removeListener, invocationCount_map_invoke]
            omega
  | set ch name value =>
    simp only [step, Except.ok.injEq] at h
    have hs : s' = (setQuestVar s ch name value).1 := by rw [h]
    have he : e = (setQuestVar s ch name value).2 := by rw [h]
    rw [he, hs, invocationCount_setQuestVar]
    simp [heldCount, pendingQuests_setQuestVar]
  | removed ch =>
    simp only [step, Except.ok.injEq, Prod.mk.injEq] at h
    obtain ⟨rfl, rfl⟩ := h
    have hreg : (if Op.registers f (Op.removed ch) = true then 1 else 0) = 0 := rfl
    have hinv : invocationCount f [] = 0 := rfl
    rw [hreg, hinv]
    unfold removedEvent
    split
    · have hle : heldCount f (partialRemove s ch) ≤ heldCount f s := by
        simp only [heldCount, partialRemove, pendingQuests_setPendingQuests]
        apply total_assign_le
        exact total_map_zero (fun l : QuestCallbacks => l.count f) (fun _ => []) _
          (fun _ => rfl)
      omega
    · omega
  | disconnected ch =>
    simp only [step, Except.ok.injEq, Prod.mk.injEq] at h
    obtain ⟨rfl, rfl⟩ := h
    have hreg : (if Op.registers f (Op.disconnected ch) = true then 1 else 0) = 0 := rfl
    have hinv : invocationCount f [] = 0 := rfl
    rw [hreg, hinv]
    unfold disconnectedEvent
    split
    · have hle : heldCount f ((fullRemove s ch).markDisconnected ch) ≤ heldCount f s := by
        simp only [heldCount, fullRemove, pendingQuests_markDisconnected,
          pendingQuests_setPendingQuests, pendingQuests_removeListener,
          getDatabaseID_removeListener]
        exact total_erase_le _ _ _
      simpa using hle
    · have heq : heldCount f (s.markDisconnected ch) = heldCount f s := rfl
      simp [heq]

theorem stepCall_count (f : QuestCallback) {s s' : State} {c : Call} {e : List Effect}
    (h : stepCall s c = Except.ok (s', e)) :
    invocationCount f e + heldCount f s'
      ≤ heldCount f s + (if Call.registers f c = true then 1 else 0) := by
  cases c with
  | op o => exact step_count f h
  | partialRemove ch =>
    simp only [stepCall, Except.ok.injEq, Prod.mk.injEq] at h
    obtain ⟨rfl, rfl⟩ := h
    have hreg : (if Call.registers f (Call.partialRemove ch) = true then 1 else 0) = 0 := rfl
    have hinv : invocationCount f [] = 0 := rfl
    have hle : heldCount f (partialRemove s ch) ≤ heldCount f s := by
      simp only [heldCount, partialRemove, pendingQuests_setPendingQuests]
      apply total_assign_le
      exact total_map_zero (fun l : QuestCallbacks => l.count f) (fun _ => []) _
        (fun _ => rfl)
    omega
  | fullRemove ch =>
    simp only [stepCall, Except.ok.injEq, Prod.mk.injEq] at h
    obtain ⟨rfl, rfl⟩ := h
    have hreg : (if Call.registers f (Call.fullRemove ch) = true then 1 else 0) = 0 := rfl
    have hinv : invocationCount f [] = 0 := rfl
    have hle : heldCount f (fullRemove s ch) ≤ heldCount f s := by
      simp only [heldCount, fullRemove, pendingQuests_setPendingQuests,
        pendingQuests_removeListener, getDatabaseID_removeListener]
      exact total_erase_le _ _ _
    omega

theorem runCalls_count (f : QuestCallback) (cs : List Call) {s s' : State} {e : List Effect}
    (h : runCalls s cs = Except.ok (s', e)) :
    invocationCount f e + heldCount f s' ≤ heldCount f s + callRegistrationCount f cs := by
  induction cs generalizing s e with
  | nil =>
    simp only [runCalls, Except.ok.injEq, Prod.mk.injEq] at h
    obtain ⟨rfl, rfl⟩ := h
    simp [invocationCount, callRegistrationCount]
  | cons c cs ih =>
    unfold runCalls at h
    split at h
    · cases h
    · next s1 e1 h1 =>
      split at h
      · cases h
      · next s2 e2 h2 =>
        simp only [Except.ok.injEq, Prod.mk.injEq] at h
        obtain ⟨rfl, rfl⟩ := h
        have hstep := stepCall_count f h1
        have hrest := ih h2
        have hsplit : invocationCount f (e1 ++ e2)
            = invocationCount f e1 + invocationCount f e2 := by
          simp [invocationCount, List.countP_append]
        have hreg : callRegistrationCount f (c :: cs)
            = (if Call.registers f c = true then 1 else 0) + callRegistrationCount f cs := by
          simp only [callRegistrationCount, List.countP_cons]
          omega
        omega

theorem runCalls_map_op (ops : List Op) (s : State) :
    runCalls s (ops.map Call.op) = run s ops := by
  induction ops generalizing s with
  | nil => rfl
  | cons o ops ih =>
    simp only [List.map_cons, runCalls, run, stepCall]
    cases step s o with
    | error x => rfl
    | ok r =>
      obtain ⟨s1, e1⟩ := r
      simp only [ih]

/-- C19: over every sequence of `recoverQuestVar`, `recoveredQuestVar`,
`setQuestVar`, lifecycle events and direct calls of `partialRemove` and
`fullRemove` that starts with an empty table, and for every callback `f`, the
invocations of `f` so far plus the copies of `f` the table still holds do not
exceed the registrations of `f` so far.  Each registration thus accounts for at
most one invocation, and a callback that was fired or discarded is not held
any more: a callback registered once is invoked at most once. -/
theorem invocations_le_registrations (s0 s : State) (cs : List Call) (e : List Effect)
    (f : QuestCallback) (h0 : s0.pendingQuests = [])
    (h : runCalls s0 cs = Except.ok (s, e)) :
    invocationCount f e + heldCount f s ≤ callRegistrationCount f cs ∧
    (callRegistrationCount f cs = 1 → invocationCount f e ≤ 1) := by
  have hrun := runCalls_count f cs h
  have hzero : heldCount f s0 = 0 := by
    simp [heldCount, h0, StdMap.total]
  refine ⟨by omega, fun h1 => by omega⟩

/-- C19 (witness): the run in which the character at address 7 disconnects
while `b` is awaited; `cbB` is registered once and invoked once, and the table
holds it no more. -/
theorem invocations_le_registrations_witness :
    initialState.pendingQuests = [] ∧
    callRegistrationCount cbB (lateCompletionCalls.map Call.op) = 1 ∧
    invocationCount cbB [Effect.requestQuestVar 7 "a", Effect.requestQuestVar 7 "b",
        Effect.handlerCall 1 7 "a" "1" 10, Effect.handlerCall 2 7 "b" "2" 20]
      + heldCount cbB (stateAfter lateCompletionCalls)
      ≤ callRegistrationCount cbB (lateCompletionCalls.map Call.op) :=
  ⟨rfl, by decide,
    (invocations_le_registrations initialState (stateAfter lateCompletionCalls)
      (lateCompletionCalls.map Call.op) _ cbB rfl
      ((runCalls_map_op lateCompletionCalls initialState).trans
        (run_eq_stateAfter lateCompletionCalls
          [Effect.requestQuestVar 7 "a", Effect.requestQuestVar 7 "b",
            Effect.handlerCall 1 7 "a" "1" 10, Effect.handlerCall 2 7 "b" "2" 20]
          (by decide)))).1⟩

/-! ## Witness of the registration step -/

theorem step_of_run_singleton {s s' : State} {op : Op} {e : List Effect}
    (h : run s [op] = Except.ok (s', e)) : step s op = Except.ok (s', e) := by
  unfold run at h
  split at h
  · cases h
  · next s1 e1 h1 =>
    simp only [run, Except.ok.injEq, Prod.mk.injEq, List.append_nil] at h
    rw [h1, h.1, h.2]

/-- C17 (witness): the first registration for the character at address 7
creates the record and attaches the listener; three successive registrations
send three requests. -/
theorem recoverQuestVar_step_witness :
    recoverQuestVar initialState 7 "a" cbA
      = Except.ok (waitingForA, [Effect.requestQuestVar 7 "a"]) ∧
    pendingEntry waitingForA (initialState.getDatabaseID 7) "a"
      = some (pendingCallbacks initialState (initialState.getDatabaseID 7) "a" ++ [cbA]) ∧
    waitingForA.hasListener 7 = true ∧
    ∃ s2, run initialState ([cbA, cbB, cbA].map (Op.recover 7 "a"))
      = Except.ok (s2, [cbA, cbB, cbA].map (fun _ => Effect.requestQuestVar 7 "a")) :=
  have h : recoverQuestVar initialState 7 "a" cbA
      = Except.ok (waitingForA, [Effect.requestQuestVar 7 "a"]) :=
    step_of_run_singleton
      (run_eq_stateAfter [Op.recover 7 "a" cbA] [Effect.requestQuestVar 7 "a"] (by decide))
  ⟨h, (recoverQuestVar_step initialState waitingForA 7 "a" cbA _ h).2.2.1,
    ((recoverQuestVar_step initialState waitingForA 7 "a" cbA _ h).2.2.2.2.2.2.1
      (by decide)).1,
    (recoverQuestVar_step initialState waitingForA 7 "a" cbA _ h).2.1 [cbA, cbB, cbA]⟩

end Quest
